import Mathlib

/-!
Verification of the virtual-file-system repository against its
natural-language specification.

The development shallowly embeds the Rust sources:

* `src/filesys/vdisk/buffer_cache.rs` — the adaptive replacement cache
  (`ArcCacheDisk`), modelled in namespace `VFS.Arc`.
* `src/bitmap.rs`, `src/filesys/free_map.rs`, `src/filesys/inode.rs`,
  `src/filesys/directory.rs`, `src/filesys.rs` — the inode / free-map /
  directory stack, modelled in namespace `VFS`.

Machine integers (`Size = u64`, `Ofs = i64`, `usize`) are modelled as
`Nat` / `Int`; the one place where overflow matters
(`req_block_count - cur_block_count` in `Inode::set_len`) is modelled
explicitly.  Code paths that panic in Rust (`expect`, `unwrap`, index
out of bounds, integer division by zero, subtraction overflow,
`unreachable!`) are modelled by `Option`-valued functions returning
`none`.  Block contents are byte functions `Nat → Nat`; the cache layer,
which never inspects the bytes it caches, carries abstract block
contents (one `Nat` per block), exactly as the Rust code treats
`[u8; 1024]` as an opaque value that is only copied whole.
-/

namespace VFS

/-- `BLOCK_SIZE` from `block.rs` (`1 << 10`). -/
def BLOCK_SIZE : Nat := 1024

/-- Ceiling division, as Rust's `u64::div_ceil` for a positive divisor. -/
def divCeil (n d : Nat) : Nat := (n + d - 1) / d

namespace Arc

/-- The four page locations of `buffer_cache.rs` (`BlockLocation`):
`T1`/`T2` are resident, `B1`/`B2` are ghosts. -/
inductive BlockLocation where
  | T1 | T2 | B1 | B2
deriving DecidableEq, Repr

/-- A cached block (`CacheBlock`): its contents (abstracted to one `Nat`,
since the cache only ever copies the `[u8; 1024]` buffer whole) and the
dirty flag. -/
structure CacheBlock where
  data : Nat
  isDirty : Bool
deriving DecidableEq, Repr

/-- The state of `ArcCacheDisk` together with the underlying block
device, which is modelled as its current contents `dev : Nat → Nat`
(block number to abstract block value).  The queues are `VecDeque`s with
the front at the head of the list (`pop_front` pops the LRU end,
`push_back` pushes the MRU end).  `store` is `data_store`, `pageMap` is
`page_map`. -/
structure ArcState where
  dev : Nat → Nat
  capacity : Nat
  p : Nat
  t1 : List Nat
  t2 : List Nat
  b1 : List Nat
  b2 : List Nat
  store : Nat → Option CacheBlock
  pageMap : Nat → Option BlockLocation

/-- `ArcCacheDisk::new`: empty cache in front of device `dev`.  The
source asserts `capacity > 0`; the model keeps the field as given. -/
def ArcState.new (dev : Nat → Nat) (capacity : Nat) : ArcState :=
  { dev := dev
    capacity := capacity
    p := 0
    t1 := []
    t2 := []
    b1 := []
    b2 := []
    store := fun _ => none
    pageMap := fun _ => none }

/-- `remove_from_list`: drop the first occurrence of `pos` from the
named queue (a no-op when absent, like the source's `position`/`remove`).
`page_map` is untouched, exactly as in the source. -/
def ArcState.removeFromList (s : ArcState) (pos : Nat) (from_ : BlockLocation) :
    ArcState :=
  match from_ with
  | .T1 => { s with t1 := s.t1.erase pos }
  | .T2 => { s with t2 := s.t2.erase pos }
  | .B1 => { s with b1 := s.b1.erase pos }
  | .B2 => { s with b2 := s.b2.erase pos }

/-- `add_to_mru`: push `pos` on the MRU end of `T1` or `T2` and record
the location in `page_map`.  The source's ghost arms are
`unreachable!()` and are never invoked; the model leaves the state
unchanged on them. -/
def ArcState.addToMru (s : ArcState) (pos : Nat) (tgt : BlockLocation) : ArcState :=
  match tgt with
  | .T1 => { s with t1 := s.t1 ++ [pos], pageMap := fun b => if b = pos then some .T1 else s.pageMap b }
  | .T2 => { s with t2 := s.t2 ++ [pos], pageMap := fun b => if b = pos then some .T2 else s.pageMap b }
  | _ => s

/-- `move_page`: `remove_from_list` followed by `add_to_mru`. -/
def ArcState.movePage (s : ArcState) (pos : Nat) (from_ tgt : BlockLocation) :
    ArcState :=
  (s.removeFromList pos from_).addToMru pos tgt

/-- The second half of `evict`, after the victim was popped: write the
victim back to the device when dirty, drop it from the data store, and
push it on the MRU end of its ghost list.  Returns the updated state
and the list of writes issued to the underlying device. -/
def ArcState.evictFinish (s : ArcState) (victim : Nat) (ghost : BlockLocation) :
    ArcState × List (Nat × Nat) :=
  let wbs : List (Nat × Nat) :=
    match s.store victim with
    | some blk => if blk.isDirty then [(victim, blk.data)] else []
    | none => []
  let dev' : Nat → Nat :=
    match s.store victim with
    | some blk =>
        if blk.isDirty then fun b => if b = victim then blk.data else s.dev b
        else s.dev
    | none => s.dev
  let s' :=
    { s with
      dev := dev'
      store := fun b => if b = victim then none else s.store b
      pageMap := fun b => if b = victim then some ghost else s.pageMap b }
  match ghost with
  | .B1 => ({ s' with b1 := s'.b1 ++ [victim] }, wbs)
  | .B2 => ({ s' with b2 := s'.b2 ++ [victim] }, wbs)
  | _ => (s', wbs)

/-- `evict`: choose the victim list (`T1` iff it is non-empty and either
longer than the target `p` or `T2` is empty), pop its LRU element, write
it back if dirty, remove it from the data store and ghost it.  Popping
an empty queue is the source's `unwrap` panic, modelled as `none`. -/
def ArcState.evict (s : ArcState) : Option (ArcState × List (Nat × Nat)) :=
  if s.t1 ≠ [] ∧ (s.t1.length > s.p ∨ s.t2 = []) then
    match s.t1 with
    | [] => none
    | v :: rest => some (ArcState.evictFinish { s with t1 := rest } v .B1)
  else
    match s.t2 with
    | [] => none
    | v :: rest => some (ArcState.evictFinish { s with t2 := rest } v .B2)

/-- The shared tail of the `read`/`write` miss paths (source lines
150–162 and 202–214): place `pos` at the MRU end of `T2` on a ghost hit
or of `T1` on a cold miss, and install the new entry in the data
store. -/
def ArcState.installMiss (s : ArcState) (pos : Nat) (ghostHit : Bool)
    (entry : CacheBlock) : ArcState :=
  let s1 := s.addToMru pos (if ghostHit then .T2 else .T1)
  { s1 with store := fun b => if b = pos then some entry else s1.store b }

/-- The tail of a ghost-hit or cold `read` miss that needs an eviction
(source lines 148–162): evict, fetch the block from the underlying
device, and install it clean, at the MRU end of `T2` for a ghost hit and
of `T1` for a cold miss. -/
def ArcState.readMissEvict (s : ArcState) (pos : Nat) (ghostHit : Bool) :
    Option (Nat × ArcState × List (Nat × Nat)) :=
  match s.evict with
  | none => none
  | some (s3, wbs) =>
    some (s3.dev pos, s3.installMiss pos ghostHit ⟨s3.dev pos, false⟩, wbs)

/-- `ArcCacheDisk::read`.  Returns the bytes read, the new state, and
the writes issued to the underlying device.  `none` models the panics:
indexing a missing data-store entry, popping an empty queue in `evict`,
and the `delta` division by zero (the source divides
`self.b1.len() / self.b2.len()` whenever `b2.len() >= b1.len()` fails,
which panics when `b2` is empty).  Note that the source removes the
block from its ghost list *before* computing `delta`, so the divisions
see the list lengths after the removal. -/
def ArcState.readOp (s : ArcState) (pos : Nat) :
    Option (Nat × ArcState × List (Nat × Nat)) :=
  match s.pageMap pos with
  | some .T1 =>
      match (s.movePage pos .T1 .T2).store pos with
      | none => none
      | some blk => some (blk.data, s.movePage pos .T1 .T2, [])
  | some .T2 =>
      match (s.movePage pos .T2 .T2).store pos with
      | none => none
      | some blk => some (blk.data, s.movePage pos .T2 .T2, [])
  | some .B1 =>
      if (s.removeFromList pos .B1).b2.length ≥ (s.removeFromList pos .B1).b1.length then
        ArcState.readMissEvict
          { s.removeFromList pos .B1 with p := min (s.p + 1) s.capacity } pos true
      else if (s.removeFromList pos .B1).b2.length = 0 then none
      else
        ArcState.readMissEvict
          { s.removeFromList pos .B1 with
            p := min (s.p + (s.removeFromList pos .B1).b1.length /
                        (s.removeFromList pos .B1).b2.length) s.capacity } pos true
  | some .B2 =>
      if (s.removeFromList pos .B2).b1.length ≥ (s.removeFromList pos .B2).b2.length then
        ArcState.readMissEvict
          { s.removeFromList pos .B2 with p := s.p - 1 } pos true
      else if (s.removeFromList pos .B2).b1.length = 0 then none
      else
        ArcState.readMissEvict
          { s.removeFromList pos .B2 with
            p := s.p - (s.removeFromList pos .B2).b2.length /
                   (s.removeFromList pos .B2).b1.length } pos true
  | none =>
      if s.t1.length + s.t2.length ≥ s.capacity then
        s.readMissEvict pos false
      else
        some (s.dev pos, s.installMiss pos false ⟨s.dev pos, false⟩, [])

/-- The tail of a ghost-hit `write` miss (source lines 180–214): evict,
then remove the block from its ghost list, and install the written block
dirty at the MRU end of `T2`. -/
def ArcState.writeGhostEvict (s : ArcState) (pos val : Nat) (ghost : BlockLocation) :
    Option (ArcState × List (Nat × Nat)) :=
  match s.evict with
  | none => none
  | some (s2, wbs) =>
    some (((s2.removeFromList pos ghost).installMiss pos true ⟨val, true⟩), wbs)

/-- `ArcCacheDisk::write`.  Returns the new state and the writes issued
to the underlying device.  On a resident hit the entry is overwritten
and marked dirty and the page promoted to the MRU of `T2`; on a miss the
ghost adaptation and eviction mirror `read` — except that the source
computes `delta` and evicts *before* removing the block from its ghost
list, so here the divisions see the list lengths with the block still in
place — and the block is installed dirty without reading the device.
The `some .T1`/`some .T2` arms with no data-store entry are the source's
`unreachable!()`. -/
def ArcState.writeOp (s : ArcState) (pos : Nat) (val : Nat) :
    Option (ArcState × List (Nat × Nat)) :=
  match s.store pos with
  | some _ =>
      match s.pageMap pos with
      | none => none
      | some loc =>
          some (({ s with store := fun b => if b = pos then some ⟨val, true⟩ else s.store b
                 }).movePage pos loc .T2, [])
  | none =>
      match s.pageMap pos with
      | some .B1 =>
          if s.b2.length ≥ s.b1.length then
            ArcState.writeGhostEvict { s with p := min (s.p + 1) s.capacity } pos val .B1
          else if s.b2.length = 0 then none
          else
            ArcState.writeGhostEvict
              { s with p := min (s.p + s.b1.length / s.b2.length) s.capacity } pos val .B1
      | some .B2 =>
          if s.b1.length ≥ s.b2.length then
            ArcState.writeGhostEvict { s with p := s.p - 1 } pos val .B2
          else if s.b1.length = 0 then none
          else
            ArcState.writeGhostEvict
              { s with p := s.p - s.b2.length / s.b1.length } pos val .B2
      | none =>
          if s.t1.length + s.t2.length ≥ s.capacity then
            match s.evict with
            | none => none
            | some (s3, wbs) => some (s3.installMiss pos false ⟨val, true⟩, wbs)
          else some (s.installMiss pos false ⟨val, true⟩, [])
      | some .T1 => none
      | some .T2 => none

/-- A cache-level operation: a block read or a block write.  (The
claims about the cache quantify over traces of reads and writes.) -/
inductive CacheOp where
  | read (pos : Nat)
  | write (pos : Nat) (val : Nat)
deriving DecidableEq, Repr

/-- One trace step: the new state and the underlying-device writes the
operation issued. -/
def stepOp (op : CacheOp) (s : ArcState) : Option (ArcState × List (Nat × Nat)) :=
  match op with
  | .read pos => (s.readOp pos).map (fun r => (r.2.1, r.2.2))
  | .write pos val => s.writeOp pos val

/-- Run a trace of cache operations; `none` as soon as one panics. -/
def runTrace (ops : List CacheOp) (s : ArcState) : Option ArcState :=
  match ops with
  | [] => some s
  | op :: rest => (stepOp op s).bind (fun r => runTrace rest r.1)

/-! ### The ARC structural invariant

`InvG s ex` is the invariant of the four lists, the page map and the
data store, with a set `ex` of excepted blocks: an excepted block sits
in no list and its (possibly stale) `page_map` entry is not trusted.
`Inv` (no exception) is the invariant proper; the excepted variant is
what holds in the middle of a miss, after a block left its ghost list
but before it is re-installed. -/
structure InvG (s : ArcState) (ex : Nat → Prop) : Prop where
  pmT1 : ∀ b, ¬ ex b → (s.pageMap b = some .T1 ↔ b ∈ s.t1)
  pmT2 : ∀ b, ¬ ex b → (s.pageMap b = some .T2 ↔ b ∈ s.t2)
  pmB1 : ∀ b, ¬ ex b → (s.pageMap b = some .B1 ↔ b ∈ s.b1)
  pmB2 : ∀ b, ¬ ex b → (s.pageMap b = some .B2 ↔ b ∈ s.b2)
  exT1 : ∀ b, ex b → b ∉ s.t1
  exT2 : ∀ b, ex b → b ∉ s.t2
  exB1 : ∀ b, ex b → b ∉ s.b1
  exB2 : ∀ b, ex b → b ∉ s.b2
  nd1 : s.t1.Nodup
  nd2 : s.t2.Nodup
  nd3 : s.b1.Nodup
  nd4 : s.b2.Nodup
  storeIff : ∀ b, ¬ ex b → ((s.store b).isSome = true ↔ (b ∈ s.t1 ∨ b ∈ s.t2))
  size : s.t1.length + s.t2.length ≤ s.capacity

/-- The ARC invariant: lists in sync with `page_map` and `data_store`,
no duplicates, resident lists within capacity. -/
def Inv (s : ArcState) : Prop := InvG s (fun _ => False)

/-- The invariant with one block `pos` excepted. -/
def InvExcept (s : ArcState) (pos : Nat) : Prop := InvG s (fun b => b = pos)

lemma Inv.invG {s : ArcState} (h : Inv s) : InvG s (fun _ => False) := h

lemma inv_new (dev : Nat → Nat) (c : Nat) : Inv (ArcState.new dev c) := by
  constructor <;> simp [ArcState.new]

lemma evictFinish_B1 (s : ArcState) (v : Nat) :
    s.evictFinish v .B1 =
      ({ s with
          dev := match s.store v with
                 | some blk => if blk.isDirty then (fun b => if b = v then blk.data else s.dev b) else s.dev
                 | none => s.dev
          b1 := s.b1 ++ [v],
          store := fun b => if b = v then none else s.store b,
          pageMap := fun b => if b = v then some .B1 else s.pageMap b },
       match s.store v with
       | some blk => if blk.isDirty then [(v, blk.data)] else []
       | none => []) := rfl

lemma evictFinish_B2 (s : ArcState) (v : Nat) :
    s.evictFinish v .B2 =
      ({ s with
          dev := match s.store v with
                 | some blk => if blk.isDirty then (fun b => if b = v then blk.data else s.dev b) else s.dev
                 | none => s.dev
          b2 := s.b2 ++ [v],
          store := fun b => if b = v then none else s.store b,
          pageMap := fun b => if b = v then some .B2 else s.pageMap b },
       match s.store v with
       | some blk => if blk.isDirty then [(v, blk.data)] else []
       | none => []) := rfl

lemma evict_spec {s s' : ArcState} {wbs : List (Nat × Nat)}
    (h : s.evict = some (s', wbs)) :
    ∃ v,
      ((∃ rest, s.t1 = v :: rest ∧ s'.t1 = rest ∧ s'.t2 = s.t2 ∧
         s'.b1 = s.b1 ++ [v] ∧ s'.b2 = s.b2 ∧
         s'.pageMap = fun b => if b = v then some .B1 else s.pageMap b) ∨
       (∃ rest, s.t2 = v :: rest ∧ s'.t2 = rest ∧ s'.t1 = s.t1 ∧
         s'.b2 = s.b2 ++ [v] ∧ s'.b1 = s.b1 ∧
         s'.pageMap = fun b => if b = v then some .B2 else s.pageMap b)) ∧
      s'.store = (fun b => if b = v then none else s.store b) ∧
      s'.capacity = s.capacity ∧ s'.p = s.p ∧
      (∀ blk, s.store v = some blk → blk.isDirty = true →
         wbs = [(v, blk.data)] ∧ s'.dev = fun b => if b = v then blk.data else s.dev b) ∧
      (∀ blk, s.store v = some blk → blk.isDirty = false → wbs = [] ∧ s'.dev = s.dev) ∧
      (s.store v = none → wbs = [] ∧ s'.dev = s.dev) := by
  unfold ArcState.evict at h
  split at h
  · cases ht : s.t1 with
    | nil => rw [ht] at h; simp at h
    | cons v rest =>
      rw [ht] at h
      simp only [Option.some_inj, evictFinish_B1] at h
      injection h with hs' hwbs
      subst hs' hwbs
      refine ⟨v, Or.inl ⟨rest, rfl, rfl, rfl, rfl, rfl, rfl⟩, rfl, rfl, rfl, ?_, ?_, ?_⟩
      · intro blk hb hd
        rw [hb]; simp only [hd, if_pos rfl]
        exact ⟨rfl, rfl⟩
      · intro blk hb hd
        rw [hb]; simp only [hd]
        exact ⟨rfl, rfl⟩
      · intro hb
        rw [hb]
        exact ⟨rfl, rfl⟩
  · cases ht : s.t2 with
    | nil => rw [ht] at h; simp at h
    | cons v rest =>
      rw [ht] at h
      simp only [Option.some_inj, evictFinish_B2] at h
      injection h with hs' hwbs
      subst hs' hwbs
      refine ⟨v, Or.inr ⟨rest, rfl, rfl, rfl, rfl, rfl, rfl⟩, rfl, rfl, rfl, ?_, ?_, ?_⟩
      · intro blk hb hd
        rw [hb]; simp only [hd, if_pos rfl]
        exact ⟨rfl, rfl⟩
      · intro blk hb hd
        rw [hb]; simp only [hd]
        exact ⟨rfl, rfl⟩
      · intro hb
        rw [hb]
        exact ⟨rfl, rfl⟩

lemma invG_evict {s : ArcState} {ex : Nat → Prop} (hi : InvG s ex)
    {s' : ArcState} {wbs : List (Nat × Nat)} (h : s.evict = some (s', wbs)) :
    InvG s' ex ∧ s'.t1.length + s'.t2.length + 1 = s.t1.length + s.t2.length ∧
    s'.capacity = s.capacity ∧
    (∀ b, b ∈ s.b1 → b ∈ s'.b1) ∧ (∀ b, b ∈ s.b2 → b ∈ s'.b2) := by
  obtain ⟨v, hcase, hstore, hcap, hp, _, _, _⟩ := evict_spec h
  rcases hcase with ⟨rest, ht1, ht1', ht2', hb1', hb2', hpm'⟩ |
    ⟨rest, ht2, ht2', ht1', hb2', hb1', hpm'⟩
  · have hvT1 : v ∈ s.t1 := by rw [ht1]; exact List.mem_cons_self v rest
    have hnex : ¬ ex v := fun hx => hi.exT1 v hx hvT1
    have hpmv : s.pageMap v = some .T1 := (hi.pmT1 v hnex).mpr hvT1
    have hvt2 : v ∉ s.t2 := fun hm => by
      have := (hi.pmT2 v hnex).mpr hm; rw [hpmv] at this; cases this
    have hvb1 : v ∉ s.b1 := fun hm => by
      have := (hi.pmB1 v hnex).mpr hm; rw [hpmv] at this; cases this
    have hvb2 : v ∉ s.b2 := fun hm => by
      have := (hi.pmB2 v hnex).mpr hm; rw [hpmv] at this; cases this
    have hvrest : v ∉ rest := by
      have := hi.nd1; rw [ht1] at this; exact (List.nodup_cons.mp this).1
    refine ⟨⟨?_, ?_, ?_, ?_, ?_, ?_, ?_, ?_, ?_, ?_, ?_, ?_, ?_, ?_⟩, ?_, hcap, ?_, ?_⟩
    · intro b hb
      rw [hpm', ht1']
      by_cases hbv : b = v
      · subst hbv; simp [hvrest]
      · simp only [if_neg hbv]
        rw [hi.pmT1 b hb, ht1]
        simp [hbv]
    · intro b hb
      rw [hpm', ht2']
      by_cases hbv : b = v
      · subst hbv; simp [hvt2]
      · simp only [if_neg hbv]; exact hi.pmT2 b hb
    · intro b hb
      rw [hpm', hb1']
      by_cases hbv : b = v
      · subst hbv; simp
      · simp only [if_neg hbv]
        rw [hi.pmB1 b hb]
        simp [hbv]
    · intro b hb
      rw [hpm', hb2']
      by_cases hbv : b = v
      · subst hbv; simp [hvb2]
      · simp only [if_neg hbv]; exact hi.pmB2 b hb
    · intro b hb
      rw [ht1']
      intro hm
      exact hi.exT1 b hb (by rw [ht1]; exact List.mem_cons_of_mem v hm)
    · intro b hb; rw [ht2']; exact hi.exT2 b hb
    · intro b hb
      rw [hb1']
      simp only [List.mem_append, List.mem_singleton]
      rintro (hm | rfl)
      · exact hi.exB1 b hb hm
      · exact hnex hb
    · intro b hb; rw [hb2']; exact hi.exB2 b hb
    · rw [ht1']
      have := hi.nd1; rw [ht1] at this; exact (List.nodup_cons.mp this).2
    · rw [ht2']; exact hi.nd2
    · rw [hb1']
      rw [List.nodup_append]
      exact ⟨hi.nd3, List.nodup_singleton v, List.disjoint_singleton.mpr hvb1⟩
    · rw [hb2']; exact hi.nd4
    · intro b hb
      rw [hstore, ht1', ht2']
      by_cases hbv : b = v
      · subst hbv; simp [hvrest, hvt2]
      · simp only [if_neg hbv]
        rw [hi.storeIff b hb, ht1]
        simp [hbv]
    · rw [ht1', ht2', hcap]
      have := hi.size; rw [ht1] at this; simp at this; omega
    · rw [ht1', ht2', ht1]; simp; omega
    · intro b hm; rw [hb1']; exact List.mem_append_left _ hm
    · intro b hm; rw [hb2']; exact hm
  · have hvT2 : v ∈ s.t2 := by rw [ht2]; exact List.mem_cons_self v rest
    have hnex : ¬ ex v := fun hx => hi.exT2 v hx hvT2
    have hpmv : s.pageMap v = some .T2 := (hi.pmT2 v hnex).mpr hvT2
    have hvt1 : v ∉ s.t1 := fun hm => by
      have := (hi.pmT1 v hnex).mpr hm; rw [hpmv] at this; cases this
    have hvb1 : v ∉ s.b1 := fun hm => by
      have := (hi.pmB1 v hnex).mpr hm; rw [hpmv] at this; cases this
    have hvb2 : v ∉ s.b2 := fun hm => by
      have := (hi.pmB2 v hnex).mpr hm; rw [hpmv] at this; cases this
    have hvrest : v ∉ rest := by
      have := hi.nd2; rw [ht2] at this; exact (List.nodup_cons.mp this).1
    refine ⟨⟨?_, ?_, ?_, ?_, ?_, ?_, ?_, ?_, ?_, ?_, ?_, ?_, ?_, ?_⟩, ?_, hcap, ?_, ?_⟩
    · intro b hb
      rw [hpm', ht1']
      by_cases hbv : b = v
      · subst hbv; simp [hvt1]
      · simp only [if_neg hbv]; exact hi.pmT1 b hb
    · intro b hb
      rw [hpm', ht2']
      by_cases hbv : b = v
      · subst hbv; simp [hvrest]
      · simp only [if_neg hbv]
        rw [hi.pmT2 b hb, ht2]
        simp [hbv]
    · intro b hb
      rw [hpm', hb1']
      by_cases hbv : b = v
      · subst hbv; simp [hvb1]
      · simp only [if_neg hbv]; exact hi.pmB1 b hb
    · intro b hb
      rw [hpm', hb2']
      by_cases hbv : b = v
      · subst hbv; simp
      · simp only [if_neg hbv]
        rw [hi.pmB2 b hb]
        simp [hbv]
    · intro b hb; rw [ht1']; exact hi.exT1 b hb
    · intro b hb
      rw [ht2']
      intro hm
      exact hi.exT2 b hb (by rw [ht2]; exact List.mem_cons_of_mem v hm)
    · intro b hb; rw [hb1']; exact hi.exB1 b hb
    · intro b hb
      rw [hb2']
      simp only [List.mem_append, List.mem_singleton]
      rintro (hm | rfl)
      · exact hi.exB2 b hb hm
      · exact hnex hb
    · rw [ht1']; exact hi.nd1
    · rw [ht2']
      have := hi.nd2; rw [ht2] at this; exact (List.nodup_cons.mp this).2
    · rw [hb1']; exact hi.nd3
    · rw [hb2']
      rw [List.nodup_append]
      exact ⟨hi.nd4, List.nodup_singleton v, List.disjoint_singleton.mpr hvb2⟩
    · intro b hb
      rw [hstore, ht1', ht2']
      by_cases hbv : b = v
      · subst hbv; simp [hvrest, hvt1]
      · simp only [if_neg hbv]
        rw [hi.storeIff b hb, ht2]
        simp [hbv]
    · rw [ht1', ht2', hcap]
      have := hi.size; rw [ht2] at this; simp at this; omega
    · rw [ht1', ht2', ht2]; simp; omega
    · intro b hm; rw [hb1']; exact hm
    · intro b hm; rw [hb2']; exact List.mem_append_left _ hm

lemma movePage_T1_T2_eq (s : ArcState) (pos : Nat) :
    s.movePage pos .T1 .T2 =
      { s with t1 := s.t1.erase pos, t2 := s.t2 ++ [pos],
               pageMap := fun b => if b = pos then some .T2 else s.pageMap b } := rfl

lemma movePage_T2_T2_eq (s : ArcState) (pos : Nat) :
    s.movePage pos .T2 .T2 =
      { s with t2 := (s.t2.erase pos) ++ [pos],
               pageMap := fun b => if b = pos then some .T2 else s.pageMap b } := rfl

lemma installMiss_true_eq (s : ArcState) (pos : Nat) (e : CacheBlock) :
    s.installMiss pos true e =
      { s with t2 := s.t2 ++ [pos],
               pageMap := fun b => if b = pos then some .T2 else s.pageMap b,
               store := fun b => if b = pos then some e else s.store b } := rfl

lemma installMiss_false_eq (s : ArcState) (pos : Nat) (e : CacheBlock) :
    s.installMiss pos false e =
      { s with t1 := s.t1 ++ [pos],
               pageMap := fun b => if b = pos then some .T1 else s.pageMap b,
               store := fun b => if b = pos then some e else s.store b } := rfl

/-- Membership of the four lists is mutually exclusive under the
invariant (each list membership pins the `page_map` entry). -/
lemma InvG.locUnique {s : ArcState} {ex : Nat → Prop} (hi : InvG s ex)
    {b : Nat} (hb : ¬ ex b) :
    (b ∈ s.t1 → s.pageMap b = some .T1) ∧ (b ∈ s.t2 → s.pageMap b = some .T2) ∧
    (b ∈ s.b1 → s.pageMap b = some .B1) ∧ (b ∈ s.b2 → s.pageMap b = some .B2) :=
  ⟨fun h => (hi.pmT1 b hb).mpr h, fun h => (hi.pmT2 b hb).mpr h,
   fun h => (hi.pmB1 b hb).mpr h, fun h => (hi.pmB2 b hb).mpr h⟩

/-- Removing a `B1` ghost hit from its list yields the invariant with
that block excepted. -/
lemma invExcept_removeB1 {s : ArcState} (hi : Inv s) {pos : Nat}
    (hpm : s.pageMap pos = some .B1) :
    InvExcept (s.removeFromList pos .B1) pos := by
  have hmem : pos ∈ s.b1 := (hi.pmB1 pos (by simp)).mp hpm
  have ht1 : pos ∉ s.t1 := fun hm => by
    have := (hi.pmT1 pos (by simp)).mpr hm; rw [hpm] at this; cases this
  have ht2 : pos ∉ s.t2 := fun hm => by
    have := (hi.pmT2 pos (by simp)).mpr hm; rw [hpm] at this; cases this
  have hb2 : pos ∉ s.b2 := fun hm => by
    have := (hi.pmB2 pos (by simp)).mpr hm; rw [hpm] at this; cases this
  refine ⟨?_, ?_, ?_, ?_, ?_, ?_, ?_, ?_, ?_, ?_, ?_, ?_, ?_, ?_⟩ <;>
    simp only [ArcState.removeFromList]
  · intro b hb; exact hi.pmT1 b (by simp)
  · intro b hb; exact hi.pmT2 b (by simp)
  · intro b hb
    rw [hi.pmB1 b (by simp)]
    exact (List.mem_erase_of_ne hb).symm
  · intro b hb; exact hi.pmB2 b (by simp)
  · intro b hb; subst hb; exact ht1
  · intro b hb; subst hb; exact ht2
  · intro b hb; subst hb; exact hi.nd3.not_mem_erase
  · intro b hb; subst hb; exact hb2
  · exact hi.nd1
  · exact hi.nd2
  · exact hi.nd3.erase pos
  · exact hi.nd4
  · intro b hb; exact hi.storeIff b (by simp)
  · exact hi.size

/-- Removing a `B2` ghost hit from its list yields the invariant with
that block excepted. -/
lemma invExcept_removeB2 {s : ArcState} (hi : Inv s) {pos : Nat}
    (hpm : s.pageMap pos = some .B2) :
    InvExcept (s.removeFromList pos .B2) pos := by
  have hmem : pos ∈ s.b2 := (hi.pmB2 pos (by simp)).mp hpm
  have ht1 : pos ∉ s.t1 := fun hm => by
    have := (hi.pmT1 pos (by simp)).mpr hm; rw [hpm] at this; cases this
  have ht2 : pos ∉ s.t2 := fun hm => by
    have := (hi.pmT2 pos (by simp)).mpr hm; rw [hpm] at this; cases this
  have hb1 : pos ∉ s.b1 := fun hm => by
    have := (hi.pmB1 pos (by simp)).mpr hm; rw [hpm] at this; cases this
  refine ⟨?_, ?_, ?_, ?_, ?_, ?_, ?_, ?_, ?_, ?_, ?_, ?_, ?_, ?_⟩ <;>
    simp only [ArcState.removeFromList]
  · intro b hb; exact hi.pmT1 b (by simp)
  · intro b hb; exact hi.pmT2 b (by simp)
  · intro b hb; exact hi.pmB1 b (by simp)
  · intro b hb
    rw [hi.pmB2 b (by simp)]
    exact (List.mem_erase_of_ne hb).symm
  · intro b hb; subst hb; exact ht1
  · intro b hb; subst hb; exact ht2
  · intro b hb; subst hb; exact hb1
  · intro b hb; subst hb; exact hi.nd4.not_mem_erase
  · exact hi.nd1
  · exact hi.nd2
  · exact hi.nd3
  · exact hi.nd4.erase pos
  · intro b hb; exact hi.storeIff b (by simp)
  · exact hi.size

/-- A cold miss (no `page_map` entry) already satisfies the excepted
invariant without touching the state. -/
lemma invExcept_cold {s : ArcState} (hi : Inv s) {pos : Nat}
    (hpm : s.pageMap pos = none) :
    InvExcept s pos := by
  have ht1 : pos ∉ s.t1 := fun hm => by
    have := (hi.pmT1 pos (by simp)).mpr hm; rw [hpm] at this; cases this
  have ht2 : pos ∉ s.t2 := fun hm => by
    have := (hi.pmT2 pos (by simp)).mpr hm; rw [hpm] at this; cases this
  have hb1 : pos ∉ s.b1 := fun hm => by
    have := (hi.pmB1 pos (by simp)).mpr hm; rw [hpm] at this; cases this
  have hb2 : pos ∉ s.b2 := fun hm => by
    have := (hi.pmB2 pos (by simp)).mpr hm; rw [hpm] at this; cases this
  exact ⟨fun b _ => hi.pmT1 b (by simp), fun b _ => hi.pmT2 b (by simp),
    fun b _ => hi.pmB1 b (by simp), fun b _ => hi.pmB2 b (by simp),
    fun b hb => hb ▸ ht1, fun b hb => hb ▸ ht2,
    fun b hb => hb ▸ hb1, fun b hb => hb ▸ hb2,
    hi.nd1, hi.nd2, hi.nd3, hi.nd4,
    fun b _ => hi.storeIff b (by simp), hi.size⟩

/-- Changing the adaptive target `p` does not affect the invariant. -/
lemma invG_setP {s : ArcState} {ex : Nat → Prop} (hi : InvG s ex) (x : Nat) :
    InvG { s with p := x } ex :=
  ⟨hi.pmT1, hi.pmT2, hi.pmB1, hi.pmB2, hi.exT1, hi.exT2, hi.exB1, hi.exB2,
   hi.nd1, hi.nd2, hi.nd3, hi.nd4, hi.storeIff, hi.size⟩

/-- Installing the missed block restores the full invariant. -/
lemma inv_installMiss {s : ArcState} {pos : Nat} (hi : InvExcept s pos)
    (hsize : s.t1.length + s.t2.length < s.capacity) (gh : Bool) (e : CacheBlock) :
    Inv (s.installMiss pos gh e) := by
  have ht1 : pos ∉ s.t1 := hi.exT1 pos rfl
  have ht2 : pos ∉ s.t2 := hi.exT2 pos rfl
  have hb1 : pos ∉ s.b1 := hi.exB1 pos rfl
  have hb2 : pos ∉ s.b2 := hi.exB2 pos rfl
  cases gh
  · rw [installMiss_false_eq]
    refine ⟨?_, ?_, ?_, ?_, ?_, ?_, ?_, ?_, ?_, ?_, ?_, ?_, ?_, ?_⟩
    · intro b _
      by_cases hbv : b = pos
      · subst hbv; simp
      · simp only [if_neg hbv]
        rw [hi.pmT1 b hbv]
        simp [hbv]
    · intro b _
      by_cases hbv : b = pos
      · subst hbv; simp [ht2]
      · simp only [if_neg hbv]; exact hi.pmT2 b hbv
    · intro b _
      by_cases hbv : b = pos
      · subst hbv; simp [hb1]
      · simp only [if_neg hbv]; exact hi.pmB1 b hbv
    · intro b _
      by_cases hbv : b = pos
      · subst hbv; simp [hb2]
      · simp only [if_neg hbv]; exact hi.pmB2 b hbv
    · intro b hb; cases hb
    · intro b hb; cases hb
    · intro b hb; cases hb
    · intro b hb; cases hb
    · rw [List.nodup_append]
      exact ⟨hi.nd1, List.nodup_singleton pos, List.disjoint_singleton.mpr ht1⟩
    · exact hi.nd2
    · exact hi.nd3
    · exact hi.nd4
    · intro b _
      by_cases hbv : b = pos
      · subst hbv; simp
      · simp only [if_neg hbv]
        rw [hi.storeIff b hbv]
        simp [hbv]
    · simp only [List.length_append, List.length_singleton]
      omega
  · rw [installMiss_true_eq]
    refine ⟨?_, ?_, ?_, ?_, ?_, ?_, ?_, ?_, ?_, ?_, ?_, ?_, ?_, ?_⟩
    · intro b _
      by_cases hbv : b = pos
      · subst hbv; simp [ht1]
      · simp only [if_neg hbv]; exact hi.pmT1 b hbv
    · intro b _
      by_cases hbv : b = pos
      · subst hbv; simp
      · simp only [if_neg hbv]
        rw [hi.pmT2 b hbv]
        simp [hbv]
    · intro b _
      by_cases hbv : b = pos
      · subst hbv; simp [hb1]
      · simp only [if_neg hbv]; exact hi.pmB1 b hbv
    · intro b _
      by_cases hbv : b = pos
      · subst hbv; simp [hb2]
      · simp only [if_neg hbv]; exact hi.pmB2 b hbv
    · intro b hb; cases hb
    · intro b hb; cases hb
    · intro b hb; cases hb
    · intro b hb; cases hb
    · exact hi.nd1
    · rw [List.nodup_append]
      exact ⟨hi.nd2, List.nodup_singleton pos, List.disjoint_singleton.mpr ht2⟩
    · exact hi.nd3
    · exact hi.nd4
    · intro b _
      by_cases hbv : b = pos
      · subst hbv; simp
      · simp only [if_neg hbv]
        rw [hi.storeIff b hbv]
        simp [hbv]
    · simp only [List.length_append, List.length_singleton]
      omega

/-- Overwriting a resident data-store entry keeps the invariant. -/
lemma inv_storeSet {s : ArcState} (hi : Inv s) {pos : Nat}
    (hsome : (s.store pos).isSome = true) (e : CacheBlock) :
    Inv { s with store := fun b => if b = pos then some e else s.store b } := by
  refine ⟨hi.pmT1, hi.pmT2, hi.pmB1, hi.pmB2, hi.exT1, hi.exT2, hi.exB1, hi.exB2,
    hi.nd1, hi.nd2, hi.nd3, hi.nd4, ?_, hi.size⟩
  intro b _
  by_cases hbv : b = pos
  · subst hbv
    simp [(hi.storeIff b (by simp)).mp hsome]
  · simp only [if_neg hbv]
    exact hi.storeIff b (by simp)

/-- A resident `T1` hit promoted to `T2` keeps the invariant. -/
lemma inv_hitT1 {s : ArcState} (hi : Inv s) {pos : Nat}
    (hpm : s.pageMap pos = some .T1) :
    Inv (s.movePage pos .T1 .T2) := by
  have hmem : pos ∈ s.t1 := (hi.pmT1 pos (by simp)).mp hpm
  have ht2 : pos ∉ s.t2 := fun hm => by
    have := (hi.pmT2 pos (by simp)).mpr hm; rw [hpm] at this; cases this
  have hb1 : pos ∉ s.b1 := fun hm => by
    have := (hi.pmB1 pos (by simp)).mpr hm; rw [hpm] at this; cases this
  have hb2 : pos ∉ s.b2 := fun hm => by
    have := (hi.pmB2 pos (by simp)).mpr hm; rw [hpm] at this; cases this
  rw [movePage_T1_T2_eq]
  refine ⟨?_, ?_, ?_, ?_, ?_, ?_, ?_, ?_, ?_, ?_, ?_, ?_, ?_, ?_⟩
  · intro b _
    by_cases hbv : b = pos
    · subst hbv; simp [hi.nd1.not_mem_erase]
    · simp only [if_neg hbv]
      rw [hi.pmT1 b (by simp)]
      exact (List.mem_erase_of_ne hbv).symm
  · intro b _
    by_cases hbv : b = pos
    · subst hbv; simp
    · simp only [if_neg hbv]
      rw [hi.pmT2 b (by simp)]
      simp [hbv]
  · intro b _
    by_cases hbv : b = pos
    · subst hbv; simp [hb1]
    · simp only [if_neg hbv]; exact hi.pmB1 b (by simp)
  · intro b _
    by_cases hbv : b = pos
    · subst hbv; simp [hb2]
    · simp only [if_neg hbv]; exact hi.pmB2 b (by simp)
  · intro b hb; cases hb
  · intro b hb; cases hb
  · intro b hb; cases hb
  · intro b hb; cases hb
  · exact hi.nd1.erase pos
  · rw [List.nodup_append]
    exact ⟨hi.nd2, List.nodup_singleton pos, List.disjoint_singleton.mpr ht2⟩
  · exact hi.nd3
  · exact hi.nd4
  · intro b _
    by_cases hbv : b = pos
    · subst hbv
      rw [hi.storeIff b (by simp)]
      simp [hmem]
    · rw [hi.storeIff b (by simp)]
      simp [hbv, List.mem_erase_of_ne hbv]
  · have := hi.size
    have hlen := List.length_erase_of_mem hmem
    simp only [List.length_append, List.length_singleton, hlen]
    have : 1 ≤ s.t1.length := List.length_pos.mpr (List.ne_nil_of_mem hmem)
    omega

/-- A resident `T2` hit moved to the MRU end of `T2` keeps the
invariant. -/
lemma inv_hitT2 {s : ArcState} (hi : Inv s) {pos : Nat}
    (hpm : s.pageMap pos = some .T2) :
    Inv (s.movePage pos .T2 .T2) := by
  have hmem : pos ∈ s.t2 := (hi.pmT2 pos (by simp)).mp hpm
  have ht1 : pos ∉ s.t1 := fun hm => by
    have := (hi.pmT1 pos (by simp)).mpr hm; rw [hpm] at this; cases this
  have hb1 : pos ∉ s.b1 := fun hm => by
    have := (hi.pmB1 pos (by simp)).mpr hm; rw [hpm] at this; cases this
  have hb2 : pos ∉ s.b2 := fun hm => by
    have := (hi.pmB2 pos (by simp)).mpr hm; rw [hpm] at this; cases this
  rw [movePage_T2_T2_eq]
  refine ⟨?_, ?_, ?_, ?_, ?_, ?_, ?_, ?_, ?_, ?_, ?_, ?_, ?_, ?_⟩
  · intro b _
    by_cases hbv : b = pos
    · subst hbv; simp [ht1]
    · simp only [if_neg hbv]; exact hi.pmT1 b (by simp)
  · intro b _
    by_cases hbv : b = pos
    · subst hbv; simp
    · simp only [if_neg hbv]
      rw [hi.pmT2 b (by simp)]
      simp [hbv, List.mem_erase_of_ne hbv]
  · intro b _
    by_cases hbv : b = pos
    · subst hbv; simp [hb1]
    · simp only [if_neg hbv]; exact hi.pmB1 b (by simp)
  · intro b _
    by_cases hbv : b = pos
    · subst hbv; simp [hb2]
    · simp only [if_neg hbv]; exact hi.pmB2 b (by simp)
  · intro b hb; cases hb
  · intro b hb; cases hb
  · intro b hb; cases hb
  · intro b hb; cases hb
  · exact hi.nd1
  · rw [List.nodup_append]
    exact ⟨hi.nd2.erase pos, List.nodup_singleton pos,
      List.disjoint_singleton.mpr (hi.nd2.not_mem_erase)⟩
  · exact hi.nd3
  · exact hi.nd4
  · intro b _
    by_cases hbv : b = pos
    · subst hbv
      rw [hi.storeIff b (by simp)]
      simp [hmem]
    · rw [hi.storeIff b (by simp)]
      simp [hbv, List.mem_erase_of_ne hbv]
  · have := hi.size
    have hlen := List.length_erase_of_mem hmem
    simp only [List.length_append, List.length_singleton, hlen]
    have : 1 ≤ s.t2.length := List.length_pos.mpr (List.ne_nil_of_mem hmem)
    omega

/-- Completed reads preserve the ARC invariant. -/
lemma inv_readOp {s : ArcState} (hi : Inv s) {pos v : Nat} {s' : ArcState}
    {log : List (Nat × Nat)} (h : s.readOp pos = some (v, s', log)) :
    Inv s' ∧ s'.capacity = s.capacity := by
  cases hpm : s.pageMap pos with
  | none =>
    simp only [ArcState.readOp, hpm] at h
    split at h
    case isTrue hcap =>
      rw [ArcState.readMissEvict] at h
      cases hev : s.evict with
      | none => rw [hev] at h; cases h
      | some r =>
        obtain ⟨s3, wbs⟩ := r
        rw [hev] at h
        simp only [Option.some_inj] at h
        cases h
        obtain ⟨hIE, hcount, hc, -, -⟩ := invG_evict (invExcept_cold hi hpm) hev
        exact ⟨inv_installMiss hIE (by have := hi.size; omega) false _, hc⟩
    case isFalse hcap =>
      simp only [Option.some_inj] at h
      cases h
      exact ⟨inv_installMiss (invExcept_cold hi hpm) (by omega) false _, rfl⟩
  | some loc =>
    cases loc with
    | T1 =>
      simp only [ArcState.readOp, hpm] at h
      cases hst : (s.movePage pos .T1 .T2).store pos with
      | none => rw [hst] at h; cases h
      | some blk =>
        rw [hst] at h
        simp only [Option.some_inj] at h
        cases h
        exact ⟨inv_hitT1 hi hpm, rfl⟩
    | T2 =>
      simp only [ArcState.readOp, hpm] at h
      cases hst : (s.movePage pos .T2 .T2).store pos with
      | none => rw [hst] at h; cases h
      | some blk =>
        rw [hst] at h
        simp only [Option.some_inj] at h
        cases h
        exact ⟨inv_hitT2 hi hpm, rfl⟩
    | B1 =>
      simp only [ArcState.readOp, hpm] at h
      have hIE := invExcept_removeB1 hi hpm
      split at h
      · rw [ArcState.readMissEvict] at h
        cases hev : ({ s.removeFromList pos .B1 with
            p := min (s.p + 1) s.capacity }).evict with
        | none => rw [hev] at h; cases h
        | some r =>
          obtain ⟨s3, wbs⟩ := r
          rw [hev] at h
          simp only [Option.some_inj] at h
          cases h
          obtain ⟨hIE3, hcount, hc, -, -⟩ := invG_evict (invG_setP hIE _) hev
          refine ⟨inv_installMiss hIE3 ?_ true _, hc⟩
          have hsz := hIE.size
          simp only [ArcState.removeFromList] at hsz hcount hc ⊢
          omega
      · split at h
        · cases h
        · rw [ArcState.readMissEvict] at h
          cases hev : ({ s.removeFromList pos .B1 with
              p := min (s.p + (s.removeFromList pos .B1).b1.length /
                          (s.removeFromList pos .B1).b2.length) s.capacity }).evict with
          | none => rw [hev] at h; cases h
          | some r =>
            obtain ⟨s3, wbs⟩ := r
            rw [hev] at h
            simp only [Option.some_inj] at h
            cases h
            obtain ⟨hIE3, hcount, hc, -, -⟩ := invG_evict (invG_setP hIE _) hev
            refine ⟨inv_installMiss hIE3 ?_ true _, hc⟩
            have hsz := hIE.size
            simp only [ArcState.removeFromList] at hsz hcount hc ⊢
            omega
    | B2 =>
      simp only [ArcState.readOp, hpm] at h
      have hIE := invExcept_removeB2 hi hpm
      split at h
      · rw [ArcState.readMissEvict] at h
        cases hev : ({ s.removeFromList pos .B2 with p := s.p - 1 }).evict with
        | none => rw [hev] at h; cases h
        | some r =>
          obtain ⟨s3, wbs⟩ := r
          rw [hev] at h
          simp only [Option.some_inj] at h
          cases h
          obtain ⟨hIE3, hcount, hc, -, -⟩ := invG_evict (invG_setP hIE _) hev
          refine ⟨inv_installMiss hIE3 ?_ true _, hc⟩
          have hsz := hIE.size
          simp only [ArcState.removeFromList] at hsz hcount hc ⊢
          omega
      · split at h
        · cases h
        · rw [ArcState.readMissEvict] at h
          cases hev : ({ s.removeFromList pos .B2 with
              p := s.p - (s.removeFromList pos .B2).b2.length /
                     (s.removeFromList pos .B2).b1.length }).evict with
          | none => rw [hev] at h; cases h
          | some r =>
            obtain ⟨s3, wbs⟩ := r
            rw [hev] at h
            simp only [Option.some_inj] at h
            cases h
            obtain ⟨hIE3, hcount, hc, -, -⟩ := invG_evict (invG_setP hIE _) hev
            refine ⟨inv_installMiss hIE3 ?_ true _, hc⟩
            have hsz := hIE.size
            simp only [ArcState.removeFromList] at hsz hcount hc ⊢
            omega

/-- Completed writes preserve the ARC invariant. -/
lemma inv_writeOp {s : ArcState} (hi : Inv s) {pos val : Nat} {s' : ArcState}
    {log : List (Nat × Nat)} (h : s.writeOp pos val = some (s', log)) :
    Inv s' ∧ s'.capacity = s.capacity := by
  cases hst : s.store pos with
  | some blk =>
    simp only [ArcState.writeOp, hst] at h
    have hsome : (s.store pos).isSome = true := by rw [hst]; rfl
    have hres : pos ∈ s.t1 ∨ pos ∈ s.t2 := (hi.storeIff pos (by simp)).mp hsome
    cases hpm : s.pageMap pos with
    | none =>
      rcases hres with hm | hm
      · have := (hi.pmT1 pos (by simp)).mpr hm; rw [hpm] at this; cases this
      · have := (hi.pmT2 pos (by simp)).mpr hm; rw [hpm] at this; cases this
    | some loc =>
      rw [hpm] at h
      simp only [Option.some_inj] at h
      cases h
      have hiU := inv_storeSet hi hsome ⟨val, true⟩
      rcases hres with hm | hm
      · have hpm1 : s.pageMap pos = some .T1 := (hi.pmT1 pos (by simp)).mpr hm
        rw [hpm1] at hpm
        injection hpm with hloc
        subst hloc
        exact ⟨inv_hitT1 hiU hpm1, rfl⟩
      · have hpm2 : s.pageMap pos = some .T2 := (hi.pmT2 pos (by simp)).mpr hm
        rw [hpm2] at hpm
        injection hpm with hloc
        subst hloc
        exact ⟨inv_hitT2 hiU hpm2, rfl⟩
  | none =>
    cases hpm : s.pageMap pos with
    | none =>
      simp only [ArcState.writeOp, hst, hpm] at h
      split at h
      case isTrue hcap =>
        cases hev : s.evict with
        | none => rw [hev] at h; cases h
        | some r =>
          obtain ⟨s3, wbs⟩ := r
          rw [hev] at h
          simp only [Option.some_inj] at h
          cases h
          obtain ⟨hIE, hcount, hc, -, -⟩ := invG_evict (invExcept_cold hi hpm) hev
          exact ⟨inv_installMiss hIE (by have := hi.size; omega) false _, hc⟩
      case isFalse hcap =>
        simp only [Option.some_inj] at h
        cases h
        exact ⟨inv_installMiss (invExcept_cold hi hpm) (by omega) false _, rfl⟩
    | some loc =>
      cases loc with
      | T1 =>
        simp only [ArcState.writeOp, hst, hpm] at h
        cases h
      | T2 =>
        simp only [ArcState.writeOp, hst, hpm] at h
        cases h
      | B1 =>
        simp only [ArcState.writeOp, hst, hpm] at h
        have hmem : pos ∈ s.b1 := (hi.pmB1 pos (by simp)).mp hpm
        have hchain : ∀ x {s2 : ArcState} {wbs : List (Nat × Nat)},
            ({ s with p := x } : ArcState).evict = some (s2, wbs) →
            s' = (s2.removeFromList pos .B1).installMiss pos true ⟨val, true⟩ →
            Inv s' ∧ s'.capacity = s.capacity := by
          intro x s2 wbs hev hs'
          obtain ⟨hI2, hcount, hc, hb1m, -⟩ := invG_evict (invG_setP hi x) hev
          have hpm2 : s2.pageMap pos = some .B1 :=
            (hI2.pmB1 pos (by simp)).mpr (hb1m pos hmem)
          have hIE := invExcept_removeB1 hI2 hpm2
          subst hs'
          have hc' : s2.capacity = s.capacity := hc
          refine ⟨inv_installMiss hIE ?_ true _, hc'⟩
          have hcount' : s2.t1.length + s2.t2.length + 1 = s.t1.length + s.t2.length := hcount
          have h0 := hi.size
          show s2.t1.length + s2.t2.length < s2.capacity
          omega
        split at h
        · rw [ArcState.writeGhostEvict] at h
          cases hev : ({ s with p := min (s.p + 1) s.capacity } : ArcState).evict with
          | none => rw [hev] at h; cases h
          | some r =>
            obtain ⟨s2, wbs⟩ := r
            rw [hev] at h
            simp only [Option.some_inj] at h
            cases h
            exact hchain _ hev rfl
        · split at h
          · cases h
          · rw [ArcState.writeGhostEvict] at h
            cases hev : ({ s with
                p := min (s.p + s.b1.length / s.b2.length) s.capacity } : ArcState).evict with
            | none => rw [hev] at h; cases h
            | some r =>
              obtain ⟨s2, wbs⟩ := r
              rw [hev] at h
              simp only [Option.some_inj] at h
              cases h
              exact hchain _ hev rfl
      | B2 =>
        simp only [ArcState.writeOp, hst, hpm] at h
        have hmem : pos ∈ s.b2 := (hi.pmB2 pos (by simp)).mp hpm
        have hchain : ∀ x {s2 : ArcState} {wbs : List (Nat × Nat)},
            ({ s with p := x } : ArcState).evict = some (s2, wbs) →
            s' = (s2.removeFromList pos .B2).installMiss pos true ⟨val, true⟩ →
            Inv s' ∧ s'.capacity = s.capacity := by
          intro x s2 wbs hev hs'
          obtain ⟨hI2, hcount, hc, -, hb2m⟩ := invG_evict (invG_setP hi x) hev
          have hpm2 : s2.pageMap pos = some .B2 :=
            (hI2.pmB2 pos (by simp)).mpr (hb2m pos hmem)
          have hIE := invExcept_removeB2 hI2 hpm2
          subst hs'
          have hc' : s2.capacity = s.capacity := hc
          refine ⟨inv_installMiss hIE ?_ true _, hc'⟩
          have hcount' : s2.t1.length + s2.t2.length + 1 = s.t1.length + s.t2.length := hcount
          have h0 := hi.size
          show s2.t1.length + s2.t2.length < s2.capacity
          omega
        split at h
        · rw [ArcState.writeGhostEvict] at h
          cases hev : ({ s with p := s.p - 1 } : ArcState).evict with
          | none => rw [hev] at h; cases h
          | some r =>
            obtain ⟨s2, wbs⟩ := r
            rw [hev] at h
            simp only [Option.some_inj] at h
            cases h
            exact hchain _ hev rfl
        · split at h
          · cases h
          · rw [ArcState.writeGhostEvict] at h
            cases hev : ({ s with p := s.p - s.b2.length / s.b1.length } : ArcState).evict with
            | none => rw [hev] at h; cases h
            | some r =>
              obtain ⟨s2, wbs⟩ := r
              rw [hev] at h
              simp only [Option.some_inj] at h
              cases h
              exact hchain _ hev rfl

/-- One completed trace step preserves the ARC invariant. -/
lemma inv_stepOp {op : CacheOp} {s s' : ArcState} {log : List (Nat × Nat)}
    (hi : Inv s) (h : stepOp op s = some (s', log)) :
    Inv s' ∧ s'.capacity = s.capacity := by
  cases op with
  | read pos =>
    simp only [stepOp, Option.map_eq_some'] at h
    obtain ⟨⟨v, s'', log''⟩, hr, he⟩ := h
    cases he
    exact inv_readOp hi hr
  | write pos val => exact inv_writeOp hi h

/-- The ARC invariant holds after every completed trace. -/
lemma inv_runTrace {ops : List CacheOp} {s0 s : ArcState}
    (hi : Inv s0) (h : runTrace ops s0 = some s) :
    Inv s ∧ s.capacity = s0.capacity := by
  induction ops generalizing s0 with
  | nil => rw [runTrace, Option.some_inj] at h; exact h ▸ ⟨hi, rfl⟩
  | cons op rest ih =>
    rw [runTrace] at h
    cases hstep : stepOp op s0 with
    | none => rw [hstep] at h; cases h
    | some r =>
      rw [hstep] at h
      obtain ⟨hi', hc'⟩ := inv_stepOp hi hstep
      obtain ⟨hI, hC⟩ := ih hi' h
      exact ⟨hI, hC.trans hc'⟩

/-- **C6** (confirmed).  After every completed read or write on the ARC
cache, every block number appears in at most one of the four lists
`T1, T2, B1, B2` (the concatenation has no duplicate), and a block
number is in `T1` or `T2` exactly when the data store holds an entry for
it — so ghost members of `B1`/`B2` have no data-store entry. -/
theorem c6_arc_lists_disjoint (ops : List CacheOp) (c : Nat) (dev : Nat → Nat)
    (s : ArcState) (h : runTrace ops (ArcState.new dev c) = some s) :
    (s.t1 ++ s.t2 ++ s.b1 ++ s.b2).Nodup ∧
    (∀ b, (s.store b).isSome = true ↔ (b ∈ s.t1 ∨ b ∈ s.t2)) := by
  obtain ⟨hi, -⟩ := inv_runTrace (inv_new dev c) h
  refine ⟨?_, fun b => hi.storeIff b (by simp)⟩
  have d12 : s.t1.Disjoint s.t2 := fun {a} h1 h2 => by
    have e1 := (hi.pmT1 a (by simp)).mpr h1
    have e2 := (hi.pmT2 a (by simp)).mpr h2
    rw [e1] at e2; simp at e2
  have d13 : s.t1.Disjoint s.b1 := fun {a} h1 h2 => by
    have e1 := (hi.pmT1 a (by simp)).mpr h1
    have e2 := (hi.pmB1 a (by simp)).mpr h2
    rw [e1] at e2; simp at e2
  have d14 : s.t1.Disjoint s.b2 := fun {a} h1 h2 => by
    have e1 := (hi.pmT1 a (by simp)).mpr h1
    have e2 := (hi.pmB2 a (by simp)).mpr h2
    rw [e1] at e2; simp at e2
  have d23 : s.t2.Disjoint s.b1 := fun {a} h1 h2 => by
    have e1 := (hi.pmT2 a (by simp)).mpr h1
    have e2 := (hi.pmB1 a (by simp)).mpr h2
    rw [e1] at e2; simp at e2
  have d24 : s.t2.Disjoint s.b2 := fun {a} h1 h2 => by
    have e1 := (hi.pmT2 a (by simp)).mpr h1
    have e2 := (hi.pmB2 a (by simp)).mpr h2
    rw [e1] at e2; simp at e2
  have d34 : s.b1.Disjoint s.b2 := fun {a} h1 h2 => by
    have e1 := (hi.pmB1 a (by simp)).mpr h1
    have e2 := (hi.pmB2 a (by simp)).mpr h2
    rw [e1] at e2; simp at e2
  rw [List.append_assoc, List.append_assoc]
  refine hi.nd1.append (hi.nd2.append (hi.nd3.append hi.nd4 d34) ?_) ?_
  · exact List.disjoint_append_right.mpr ⟨d23, d24⟩
  · refine List.disjoint_append_right.mpr ⟨d12, List.disjoint_append_right.mpr ⟨d13, d14⟩⟩

/-- Witness for C6: a concrete completed 4-operation trace on a cache of
capacity 2; the conclusion is obtained by applying the theorem. -/
theorem c6_arc_lists_disjoint_witness :
    (runTrace [CacheOp.write 0 5, CacheOp.read 1, CacheOp.read 0, CacheOp.write 2 9]
        (ArcState.new (fun b => b + 100) 2)).elim False
      (fun s => (s.t1 ++ s.t2 ++ s.b1 ++ s.b2).Nodup ∧
        (∀ b, (s.store b).isSome = true ↔ (b ∈ s.t1 ∨ b ∈ s.t2))) := by
  obtain ⟨s, hs⟩ : ∃ s,
      runTrace [CacheOp.write 0 5, CacheOp.read 1, CacheOp.read 0, CacheOp.write 2 9]
        (ArcState.new (fun b => b + 100) 2) = some s := ⟨_, rfl⟩
  rw [hs]
  exact c6_arc_lists_disjoint _ _ _ _ hs

/-- **C7, amended** (the claim's ghost bounds are false on this code:
the ghost lists are never trimmed).  What does hold after every
completed read or write: the resident lists satisfy
`|T1| + |T2| ≤ capacity`. -/
theorem c7_resident_bounded (ops : List CacheOp) (c : Nat) (dev : Nat → Nat)
    (s : ArcState) (h : runTrace ops (ArcState.new dev c) = some s) :
    s.t1.length + s.t2.length ≤ c := by
  obtain ⟨hi, hcap⟩ := inv_runTrace (inv_new dev c) h
  have := hi.size
  rw [hcap] at this
  exact this

/-- Witness for C7's amended theorem: the same concrete trace, capacity
2. -/
theorem c7_resident_bounded_witness :
    (runTrace [CacheOp.write 0 5, CacheOp.read 1, CacheOp.read 0, CacheOp.write 2 9]
        (ArcState.new (fun b => b + 100) 2)).elim False
      (fun s => s.t1.length + s.t2.length ≤ 2) := by
  obtain ⟨s, hs⟩ : ∃ s,
      runTrace [CacheOp.write 0 5, CacheOp.read 1, CacheOp.read 0, CacheOp.write 2 9]
        (ArcState.new (fun b => b + 100) 2) = some s := ⟨_, rfl⟩
  rw [hs]
  exact c7_resident_bounded _ _ _ _ hs

/-- **C7, counterexample**.  On a capacity-1 cache the completed trace
`read 0, read 1, read 2` leaves `|B1| = 2`, so both claimed ghost bounds
`|T1| + |B1| ≤ c` and `|B1| + |B2| ≤ c` are violated: the code never
trims the ghost lists. -/
theorem c7_ghost_bounds_counterexample :
    (runTrace [CacheOp.read 0, CacheOp.read 1, CacheOp.read 2]
        (ArcState.new (fun b => b + 100) 1)).map
      (fun s => (s.t1.length, s.t2.length, s.b1.length, s.b2.length,
        decide (s.t1.length + s.b1.length ≤ 1 ∧ s.b1.length + s.b2.length ≤ 1))) =
      some (1, 0, 2, 0, false) := by
  decide


/-- **C8, amended**.  How the code actually adapts the target `p` on
ghost hits — not as the claim states it.  On a `read` miss the block is
first removed from its ghost list, so the lengths below are taken
*after* the removal; on a `write` miss they are taken *before* it.  The
ratio used is `|B1|/|B2|` on a `B1` hit (and `|B2|/|B1|` on a `B2` hit),
i.e. longer-over-shorter, not the claim's `max(1, |B2|/|B1|)`; and when
the divisor list is empty while shorter than the other ghost list, the
division panics and the operation does not complete. -/
theorem c8_adaptation (s : ArcState) (pos val : Nat) :
    (s.pageMap pos = some .B1 →
      (∀ res, s.readOp pos = some res →
        res.2.1.p = min (s.p +
          (if s.b2.length ≥ (s.b1.erase pos).length then 1
           else (s.b1.erase pos).length / s.b2.length)) s.capacity) ∧
      (s.b2.length = 0 → (s.b1.erase pos).length ≠ 0 → s.readOp pos = none)) ∧
    (s.pageMap pos = some .B2 →
      (∀ res, s.readOp pos = some res →
        res.2.1.p = s.p -
          (if s.b1.length ≥ (s.b2.erase pos).length then 1
           else (s.b2.erase pos).length / s.b1.length)) ∧
      (s.b1.length = 0 → (s.b2.erase pos).length ≠ 0 → s.readOp pos = none)) ∧
    (s.store pos = none → s.pageMap pos = some .B1 →
      (∀ res, s.writeOp pos val = some res →
        res.1.p = min (s.p +
          (if s.b2.length ≥ s.b1.length then 1
           else s.b1.length / s.b2.length)) s.capacity) ∧
      (s.b2.length = 0 → s.b1.length ≠ 0 → s.writeOp pos val = none)) ∧
    (s.store pos = none → s.pageMap pos = some .B2 →
      (∀ res, s.writeOp pos val = some res →
        res.1.p = s.p -
          (if s.b1.length ≥ s.b2.length then 1
           else s.b2.length / s.b1.length)) ∧
      (s.b1.length = 0 → s.b2.length ≠ 0 → s.writeOp pos val = none)) := by
  refine ⟨fun hpm => ⟨?_, ?_⟩, fun hpm => ⟨?_, ?_⟩,
    fun hst hpm => ⟨?_, ?_⟩, fun hst hpm => ⟨?_, ?_⟩⟩
  · intro res h
    simp only [ArcState.readOp, hpm, ArcState.removeFromList] at h
    split at h
    case isTrue hcnd =>
      rw [ArcState.readMissEvict] at h
      split at h
      · cases h
      case h_2 s3 wbs hev =>
        obtain ⟨v, -, -, -, hp, -, -, -⟩ := evict_spec hev
        simp only [Option.some_inj] at h
        cases h
        rw [if_pos hcnd]
        exact hp
    case isFalse hcnd =>
      split at h
      · cases h
      case isFalse hz =>
        rw [ArcState.readMissEvict] at h
        split at h
        · cases h
        case h_2 s3 wbs hev =>
          obtain ⟨v, -, -, -, hp, -, -, -⟩ := evict_spec hev
          simp only [Option.some_inj] at h
          cases h
          rw [if_neg hcnd]
          exact hp
  · intro hz hb1
    simp only [ArcState.readOp, hpm, ArcState.removeFromList]
    rw [if_neg (by omega), if_pos hz]
  · intro res h
    simp only [ArcState.readOp, hpm, ArcState.removeFromList] at h
    split at h
    case isTrue hcnd =>
      rw [ArcState.readMissEvict] at h
      split at h
      · cases h
      case h_2 s3 wbs hev =>
        obtain ⟨v, -, -, -, hp, -, -, -⟩ := evict_spec hev
        simp only [Option.some_inj] at h
        cases h
        rw [if_pos hcnd]
        exact hp
    case isFalse hcnd =>
      split at h
      · cases h
      case isFalse hz =>
        rw [ArcState.readMissEvict] at h
        split at h
        · cases h
        case h_2 s3 wbs hev =>
          obtain ⟨v, -, -, -, hp, -, -, -⟩ := evict_spec hev
          simp only [Option.some_inj] at h
          cases h
          rw [if_neg hcnd]
          exact hp
  · intro hz hb2
    simp only [ArcState.readOp, hpm, ArcState.removeFromList]
    rw [if_neg (by omega), if_pos hz]
  · intro res h
    simp only [ArcState.writeOp, hst, hpm] at h
    split at h
    case isTrue hcnd =>
      rw [ArcState.writeGhostEvict] at h
      split at h
      · cases h
      case h_2 s2 wbs hev =>
        obtain ⟨v, -, -, -, hp, -, -, -⟩ := evict_spec hev
        simp only [Option.some_inj] at h
        cases h
        rw [if_pos hcnd]
        exact hp
    case isFalse hcnd =>
      split at h
      · cases h
      case isFalse hz =>
        rw [ArcState.writeGhostEvict] at h
        split at h
        · cases h
        case h_2 s2 wbs hev =>
          obtain ⟨v, -, -, -, hp, -, -, -⟩ := evict_spec hev
          simp only [Option.some_inj] at h
          cases h
          rw [if_neg hcnd]
          exact hp
  · intro hz hb1
    simp only [ArcState.writeOp, hst, hpm]
    rw [if_neg (by omega), if_pos hz]
  · intro res h
    simp only [ArcState.writeOp, hst, hpm] at h
    split at h
    case isTrue hcnd =>
      rw [ArcState.writeGhostEvict] at h
      split at h
      · cases h
      case h_2 s2 wbs hev =>
        obtain ⟨v, -, -, -, hp, -, -, -⟩ := evict_spec hev
        simp only [Option.some_inj] at h
        cases h
        rw [if_pos hcnd]
        exact hp
    case isFalse hcnd =>
      split at h
      · cases h
      case isFalse hz =>
        rw [ArcState.writeGhostEvict] at h
        split at h
        · cases h
        case h_2 s2 wbs hev =>
          obtain ⟨v, -, -, -, hp, -, -, -⟩ := evict_spec hev
          simp only [Option.some_inj] at h
          cases h
          rw [if_neg hcnd]
          exact hp
  · intro hz hb2
    simp only [ArcState.writeOp, hst, hpm]
    rw [if_neg (by omega), if_pos hz]


/-- Store and write-back log behavior of the miss tail `evict`-then-
`installMiss`, shared by all four miss paths that evict. -/
lemma evict_install_c5 {u s3 : ArcState} {wbs : List (Nat × Nat)}
    (hev : u.evict = some (s3, wbs)) (pos : Nat) (gh : Bool) (e : CacheBlock)
    (hp1 : pos ∉ u.t1) (hp2 : pos ∉ u.t2) :
    (∀ b blk, (s3.installMiss pos gh e).store b = some blk → b ≠ pos →
       u.store b = some blk) ∧
    ((s3.installMiss pos gh e).store pos = some e) ∧
    (∀ b blk, u.store b = some blk → (s3.installMiss pos gh e).store b = none →
       (blk.isDirty = true → wbs = [(b, blk.data)]) ∧
       (blk.isDirty = false → wbs = [])) ∧
    (∀ w ∈ wbs, ∃ blk, u.store w.1 = some blk ∧ blk.isDirty = true ∧
       w.2 = blk.data ∧ (s3.installMiss pos gh e).store w.1 = none) := by
  obtain ⟨v, hcase, hstore, -, -, hwd, hwc, hwn⟩ := evict_spec hev
  have hvpos : v ≠ pos := by
    rcases hcase with ⟨rest, ht, -⟩ | ⟨rest, ht, -⟩
    · intro he; exact hp1 (by rw [ht, he]; exact List.mem_cons_self pos rest)
    · intro he; exact hp2 (by rw [ht, he]; exact List.mem_cons_self pos rest)
  have hinst : ∀ b, (s3.installMiss pos gh e).store b =
      if b = pos then some e else s3.store b := by
    intro b
    cases gh
    · rw [installMiss_false_eq]
    · rw [installMiss_true_eq]
  refine ⟨?_, ?_, ?_, ?_⟩
  · intro b blk hb hbp
    rw [hinst, if_neg hbp] at hb
    simp only [hstore] at hb
    by_cases hbv : b = v
    · rw [if_pos hbv] at hb; cases hb
    · rw [if_neg hbv] at hb; exact hb
  · rw [hinst, if_pos rfl]
  · intro b blk hub hnone
    have hbp : b ≠ pos := by
      intro he
      rw [he, hinst, if_pos rfl] at hnone
      cases hnone
    rw [hinst, if_neg hbp] at hnone
    simp only [hstore] at hnone
    by_cases hbv : b = v
    · subst hbv
      constructor
      · intro hd; exact ((hwd blk hub hd).1)
      · intro hd; exact ((hwc blk hub hd).1)
    · rw [if_neg hbv] at hnone
      rw [hub] at hnone; cases hnone
  · intro w hw
    cases husv : u.store v with
    | none =>
      rw [(hwn husv).1] at hw
      cases hw
    | some blk =>
      cases hd : blk.isDirty with
      | false =>
        rw [(hwc blk husv hd).1] at hw
        cases hw
      | true =>
        rw [(hwd blk husv hd).1] at hw
        have hwv : w = (v, blk.data) := by
          cases hw with
          | head => rfl
          | tail _ hmem => cases hmem
        subst hwv
        refine ⟨blk, husv, hd, rfl, ?_⟩
        rw [hinst, if_neg hvpos]
        simp [hstore]

/-- Store and write-back log behavior of a completed `read`. -/
lemma readOp_c5 {s : ArcState} (hi : Inv s) {pos v : Nat} {s' : ArcState}
    {log : List (Nat × Nat)} (h : s.readOp pos = some (v, s', log)) :
    (∀ b blk, s'.store b = some blk → blk.isDirty = true → s.store b = some blk) ∧
    (∀ b blk, s.store b = some blk → s'.store b = none →
       (blk.isDirty = true → log = [(b, blk.data)]) ∧
       (blk.isDirty = false → log = [])) ∧
    (∀ w ∈ log, ∃ blk, s.store w.1 = some blk ∧ blk.isDirty = true ∧
       w.2 = blk.data ∧ s'.store w.1 = none) := by
  have hitCase : ∀ (s1 : ArcState), s1.store = s.store → log = [] → s' = s1 →
      (∀ b blk, s'.store b = some blk → blk.isDirty = true → s.store b = some blk) ∧
      (∀ b blk, s.store b = some blk → s'.store b = none →
         (blk.isDirty = true → log = [(b, blk.data)]) ∧
         (blk.isDirty = false → log = [])) ∧
      (∀ w ∈ log, ∃ blk, s.store w.1 = some blk ∧ blk.isDirty = true ∧
         w.2 = blk.data ∧ s'.store w.1 = none) := by
    intro s1 hs1 hlog hs'
    subst hs'
    subst hlog
    refine ⟨?_, ?_, ?_⟩
    · intro b blk hb _; rw [hs1] at hb; exact hb
    · intro b blk hb hn
      rw [hs1, hb] at hn; cases hn
    · intro w hw; cases hw
  have missCase : ∀ (u s3 : ArcState) (wbs : List (Nat × Nat)) (gh : Bool)
      (e : CacheBlock),
      u.evict = some (s3, wbs) → u.store = s.store → pos ∉ u.t1 → pos ∉ u.t2 →
      e.isDirty = false → log = wbs → s' = s3.installMiss pos gh e →
      (∀ b blk, s'.store b = some blk → blk.isDirty = true → s.store b = some blk) ∧
      (∀ b blk, s.store b = some blk → s'.store b = none →
         (blk.isDirty = true → log = [(b, blk.data)]) ∧
         (blk.isDirty = false → log = [])) ∧
      (∀ w ∈ log, ∃ blk, s.store w.1 = some blk ∧ blk.isDirty = true ∧
         w.2 = blk.data ∧ s'.store w.1 = none) := by
    intro u s3 wbs gh e hev hust hp1 hp2 hed hlog hs'
    subst hs'
    subst hlog
    obtain ⟨c1, c2, c3, c4⟩ := evict_install_c5 hev pos gh e hp1 hp2
    rw [hust] at c1 c3 c4
    refine ⟨?_, c3, c4⟩
    intro b blk hb hd
    by_cases hbp : b = pos
    · subst hbp
      rw [c2] at hb
      injection hb with he
      rw [← he] at hd
      rw [hed] at hd
      cases hd
    · exact c1 b blk hb hbp
  have hb1mem : ∀ loc, s.pageMap pos = some loc → loc = .B1 ∨ loc = .B2 →
      pos ∉ s.t1 ∧ pos ∉ s.t2 := by
    intro loc hpm hloc
    constructor
    · intro hm
      have := (hi.pmT1 pos (by simp)).mpr hm
      rw [hpm] at this
      injection this with he
      rcases hloc with rfl | rfl <;> cases he
    · intro hm
      have := (hi.pmT2 pos (by simp)).mpr hm
      rw [hpm] at this
      injection this with he
      rcases hloc with rfl | rfl <;> cases he
  cases hpm : s.pageMap pos with
  | none =>
    have hpt : pos ∉ s.t1 ∧ pos ∉ s.t2 := by
      constructor
      · intro hm
        have := (hi.pmT1 pos (by simp)).mpr hm
        rw [hpm] at this; cases this
      · intro hm
        have := (hi.pmT2 pos (by simp)).mpr hm
        rw [hpm] at this; cases this
    simp only [ArcState.readOp, hpm] at h
    split at h
    case isTrue hcap =>
      rw [ArcState.readMissEvict] at h
      cases hev : s.evict with
      | none => rw [hev] at h; cases h
      | some r =>
        obtain ⟨s3, wbs⟩ := r
        rw [hev] at h
        simp only [Option.some_inj] at h
        cases h
        exact missCase s s3 _ false _ hev rfl hpt.1 hpt.2 rfl rfl rfl
    case isFalse hcap =>
      simp only [Option.some_inj] at h
      cases h
      refine ⟨?_, ?_, ?_⟩
      · intro b blk hb hd
        by_cases hbp : b = pos
        · subst hbp
          rw [installMiss_false_eq] at hb
          simp only [if_pos rfl] at hb
          injection hb with he
          rw [← he] at hd
          cases hd
        · rw [installMiss_false_eq] at hb
          simp only [if_neg hbp] at hb
          exact hb
      · intro b blk hb hn
        by_cases hbp : b = pos
        · subst hbp
          rw [installMiss_false_eq] at hn
          simp only [if_pos rfl] at hn
          cases hn
        · rw [installMiss_false_eq] at hn
          simp only [if_neg hbp] at hn
          rw [hb] at hn; cases hn
      · intro w hw; cases hw
  | some loc =>
    cases loc with
    | T1 =>
      simp only [ArcState.readOp, hpm] at h
      cases hst : (s.movePage pos .T1 .T2).store pos with
      | none => rw [hst] at h; cases h
      | some blk =>
        rw [hst] at h
        simp only [Option.some_inj] at h
        cases h
        exact hitCase (s.movePage pos .T1 .T2) rfl rfl rfl
    | T2 =>
      simp only [ArcState.readOp, hpm] at h
      cases hst : (s.movePage pos .T2 .T2).store pos with
      | none => rw [hst] at h; cases h
      | some blk =>
        rw [hst] at h
        simp only [Option.some_inj] at h
        cases h
        exact hitCase (s.movePage pos .T2 .T2) rfl rfl rfl
    | B1 =>
      have hpt := hb1mem _ hpm (Or.inl rfl)
      simp only [ArcState.readOp, hpm] at h
      split at h
      case isTrue hcnd =>
        rw [ArcState.readMissEvict] at h
        cases hev : ({ s.removeFromList pos .B1 with
            p := min (s.p + 1) s.capacity } : ArcState).evict with
        | none => rw [hev] at h; cases h
        | some r =>
          obtain ⟨s3, wbs⟩ := r
          rw [hev] at h
          simp only [Option.some_inj] at h
          cases h
          exact missCase _ s3 _ true _ hev rfl hpt.1 hpt.2 rfl rfl rfl
      case isFalse hcnd =>
        split at h
        · cases h
        case isFalse hz =>
          rw [ArcState.readMissEvict] at h
          cases hev : ({ s.removeFromList pos .B1 with
              p := min (s.p + (s.removeFromList pos .B1).b1.length /
                          (s.removeFromList pos .B1).b2.length) s.capacity } : ArcState).evict with
          | none => rw [hev] at h; cases h
          | some r =>
            obtain ⟨s3, wbs⟩ := r
            rw [hev] at h
            simp only [Option.some_inj] at h
            cases h
            exact missCase _ s3 _ true _ hev rfl hpt.1 hpt.2 rfl rfl rfl
    | B2 =>
      have hpt := hb1mem _ hpm (Or.inr rfl)
      simp only [ArcState.readOp, hpm] at h
      split at h
      case isTrue hcnd =>
        rw [ArcState.readMissEvict] at h
        cases hev : ({ s.removeFromList pos .B2 with p := s.p - 1 } : ArcState).evict with
        | none => rw [hev] at h; cases h
        | some r =>
          obtain ⟨s3, wbs⟩ := r
          rw [hev] at h
          simp only [Option.some_inj] at h
          cases h
          exact missCase _ s3 _ true _ hev rfl hpt.1 hpt.2 rfl rfl rfl
      case isFalse hcnd =>
        split at h
        · cases h
        case isFalse hz =>
          rw [ArcState.readMissEvict] at h
          cases hev : ({ s.removeFromList pos .B2 with
              p := s.p - (s.removeFromList pos .B2).b2.length /
                     (s.removeFromList pos .B2).b1.length } : ArcState).evict with
          | none => rw [hev] at h; cases h
          | some r =>
            obtain ⟨s3, wbs⟩ := r
            rw [hev] at h
            simp only [Option.some_inj] at h
            cases h
            exact missCase _ s3 _ true _ hev rfl hpt.1 hpt.2 rfl rfl rfl

/-- Store and write-back log behavior of a completed `write`. -/
lemma writeOp_c5 {s : ArcState} (hi : Inv s) {pos val : Nat} {s' : ArcState}
    {log : List (Nat × Nat)} (h : s.writeOp pos val = some (s', log)) :
    (∀ b blk, s'.store b = some blk → blk.isDirty = true →
       (b = pos ∧ blk.data = val) ∨ (b ≠ pos ∧ s.store b = some blk)) ∧
    (∀ b blk, s.store b = some blk → s'.store b = none →
       (blk.isDirty = true → log = [(b, blk.data)]) ∧
       (blk.isDirty = false → log = [])) ∧
    (∀ w ∈ log, ∃ blk, s.store w.1 = some blk ∧ blk.isDirty = true ∧
       w.2 = blk.data ∧ s'.store w.1 = none) := by
  have setCase : ∀ (s1 : ArcState),
      s1.store = (fun b => if b = pos then some ⟨val, true⟩ else s.store b) →
      log = [] → s' = s1 →
      (∀ b blk, s'.store b = some blk → blk.isDirty = true →
         (b = pos ∧ blk.data = val) ∨ (b ≠ pos ∧ s.store b = some blk)) ∧
      (∀ b blk, s.store b = some blk → s'.store b = none →
         (blk.isDirty = true → log = [(b, blk.data)]) ∧
         (blk.isDirty = false → log = [])) ∧
      (∀ w ∈ log, ∃ blk, s.store w.1 = some blk ∧ blk.isDirty = true ∧
         w.2 = blk.data ∧ s'.store w.1 = none) := by
    intro s1 hs1 hlog hs'
    subst hs'
    subst hlog
    refine ⟨?_, ?_, ?_⟩
    · intro b blk hb _
      rw [hs1] at hb
      by_cases hbp : b = pos
      · subst hbp
        simp only [if_pos rfl] at hb
        injection hb with he
        exact Or.inl ⟨rfl, by rw [← he]⟩
      · simp only [if_neg hbp] at hb
        exact Or.inr ⟨hbp, hb⟩
    · intro b blk hb hn
      rw [hs1] at hn
      by_cases hbp : b = pos
      · subst hbp; simp only [if_pos rfl] at hn; cases hn
      · simp only [if_neg hbp] at hn; rw [hb] at hn; cases hn
    · intro w hw; cases hw
  have missCase : ∀ (u s3 : ArcState) (wbs : List (Nat × Nat)) (gh : Bool),
      u.evict = some (s3, wbs) → u.store = s.store → pos ∉ u.t1 → pos ∉ u.t2 →
      log = wbs →
      (∀ b, s'.store b = if b = pos then some ⟨val, true⟩ else s3.store b) →
      (∀ b blk, s'.store b = some blk → blk.isDirty = true →
         (b = pos ∧ blk.data = val) ∨ (b ≠ pos ∧ s.store b = some blk)) ∧
      (∀ b blk, s.store b = some blk → s'.store b = none →
         (blk.isDirty = true → log = [(b, blk.data)]) ∧
         (blk.isDirty = false → log = [])) ∧
      (∀ w ∈ log, ∃ blk, s.store w.1 = some blk ∧ blk.isDirty = true ∧
         w.2 = blk.data ∧ s'.store w.1 = none) := by
    intro u s3 wbs gh hev hust hp1 hp2 hlog hstoreEq
    subst hlog
    obtain ⟨v, hcase, hstore, -, -, hwd, hwc, hwn⟩ := evict_spec hev
    have hvpos : v ≠ pos := by
      rcases hcase with ⟨rest, ht, -⟩ | ⟨rest, ht, -⟩
      · intro he; exact hp1 (by rw [ht, he]; exact List.mem_cons_self pos rest)
      · intro he; exact hp2 (by rw [ht, he]; exact List.mem_cons_self pos rest)
    refine ⟨?_, ?_, ?_⟩
    · intro b blk hb _
      rw [hstoreEq] at hb
      by_cases hbp : b = pos
      · subst hbp
        simp only [if_pos rfl] at hb
        injection hb with he
        exact Or.inl ⟨rfl, by rw [← he]⟩
      · simp only [if_neg hbp] at hb
        simp only [hstore] at hb
        by_cases hbv : b = v
        · rw [if_pos hbv] at hb; cases hb
        · rw [if_neg hbv] at hb
          rw [← hust]
          exact Or.inr ⟨hbp, hb⟩
    · intro b blk hb hn
      rw [hstoreEq] at hn
      by_cases hbp : b = pos
      · subst hbp; simp only [if_pos rfl] at hn; cases hn
      · simp only [if_neg hbp] at hn
        simp only [hstore] at hn
        by_cases hbv : b = v
        · subst hbv
          rw [← hust] at hb
          exact ⟨fun hd => (hwd blk hb hd).1, fun hd => (hwc blk hb hd).1⟩
        · rw [if_neg hbv] at hn
          rw [hust] at hn
          rw [hb] at hn; cases hn
    · intro w hw
      cases husv : u.store v with
      | none =>
        rw [(hwn husv).1] at hw
        cases hw
      | some blk =>
        cases hd : blk.isDirty with
        | false =>
          rw [(hwc blk husv hd).1] at hw
          cases hw
        | true =>
          rw [(hwd blk husv hd).1] at hw
          have hwv : w = (v, blk.data) := by
            cases hw with
            | head => rfl
            | tail _ hmem => cases hmem
          subst hwv
          refine ⟨blk, by rw [← hust]; exact husv, hd, rfl, ?_⟩
          rw [hstoreEq, if_neg hvpos]
          simp [hstore]
  cases hst : s.store pos with
  | some blk0 =>
    simp only [ArcState.writeOp, hst] at h
    cases hpm : s.pageMap pos with
    | none => rw [hpm] at h; cases h
    | some loc =>
      rw [hpm] at h
      simp only [Option.some_inj] at h
      cases h
      refine setCase _ ?_ rfl rfl
      cases loc <;> rfl
  | none =>
    cases hpm : s.pageMap pos with
    | none =>
      have hpt : pos ∉ s.t1 ∧ pos ∉ s.t2 := by
        constructor
        · intro hm
          have := (hi.pmT1 pos (by simp)).mpr hm
          rw [hpm] at this; cases this
        · intro hm
          have := (hi.pmT2 pos (by simp)).mpr hm
          rw [hpm] at this; cases this
      simp only [ArcState.writeOp, hst, hpm] at h
      split at h
      case isTrue hcap =>
        cases hev : s.evict with
        | none => rw [hev] at h; cases h
        | some r =>
          obtain ⟨s3, wbs⟩ := r
          rw [hev] at h
          simp only [Option.some_inj] at h
          cases h
          refine missCase s s3 _ false hev rfl hpt.1 hpt.2 rfl ?_
          intro b
          rw [installMiss_false_eq]
      case isFalse hcap =>
        simp only [Option.some_inj] at h
        cases h
        refine setCase _ ?_ rfl rfl
        rw [installMiss_false_eq]
    | some loc =>
      have hpt : loc = .B1 ∨ loc = .B2 → pos ∉ s.t1 ∧ pos ∉ s.t2 := by
        intro hloc
        constructor
        · intro hm
          have := (hi.pmT1 pos (by simp)).mpr hm
          rw [hpm] at this
          injection this with he
          rcases hloc with rfl | rfl <;> cases he
        · intro hm
          have := (hi.pmT2 pos (by simp)).mpr hm
          rw [hpm] at this
          injection this with he
          rcases hloc with rfl | rfl <;> cases he
      cases loc with
      | T1 =>
        simp only [ArcState.writeOp, hst, hpm] at h
        cases h
      | T2 =>
        simp only [ArcState.writeOp, hst, hpm] at h
        cases h
      | B1 =>
        obtain ⟨hp1, hp2⟩ := hpt (Or.inl rfl)
        simp only [ArcState.writeOp, hst, hpm] at h
        have hfin : ∀ (u : ArcState),
            ArcState.writeGhostEvict u pos val .B1 = some (s', log) →
            u.t1 = s.t1 → u.t2 = s.t2 → u.store = s.store →
            (∀ b blk, s'.store b = some blk → blk.isDirty = true →
               (b = pos ∧ blk.data = val) ∨ (b ≠ pos ∧ s.store b = some blk)) ∧
            (∀ b blk, s.store b = some blk → s'.store b = none →
               (blk.isDirty = true → log = [(b, blk.data)]) ∧
               (blk.isDirty = false → log = [])) ∧
            (∀ w ∈ log, ∃ blk, s.store w.1 = some blk ∧ blk.isDirty = true ∧
               w.2 = blk.data ∧ s'.store w.1 = none) := by
          intro u hw hut1 hut2 hust
          rw [ArcState.writeGhostEvict] at hw
          cases hev : u.evict with
          | none => rw [hev] at hw; cases hw
          | some r =>
            obtain ⟨s2, wbs⟩ := r
            rw [hev] at hw
            simp only [Option.some_inj] at hw
            cases hw
            refine missCase u s2 _ true hev hust
              (by rw [hut1]; exact hp1) (by rw [hut2]; exact hp2) rfl ?_
            intro b
            rw [installMiss_true_eq]
            by_cases hbp : b = pos
            · subst hbp; simp
            · simp only [if_neg hbp]
              rfl
        split at h
        · exact hfin _ h rfl rfl rfl
        · split at h
          · cases h
          · exact hfin _ h rfl rfl rfl
      | B2 =>
        obtain ⟨hp1, hp2⟩ := hpt (Or.inr rfl)
        simp only [ArcState.writeOp, hst, hpm] at h
        have hfin : ∀ (u : ArcState),
            ArcState.writeGhostEvict u pos val .B2 = some (s', log) →
            u.t1 = s.t1 → u.t2 = s.t2 → u.store = s.store →
            (∀ b blk, s'.store b = some blk → blk.isDirty = true →
               (b = pos ∧ blk.data = val) ∨ (b ≠ pos ∧ s.store b = some blk)) ∧
            (∀ b blk, s.store b = some blk → s'.store b = none →
               (blk.isDirty = true → log = [(b, blk.data)]) ∧
               (blk.isDirty = false → log = [])) ∧
            (∀ w ∈ log, ∃ blk, s.store w.1 = some blk ∧ blk.isDirty = true ∧
               w.2 = blk.data ∧ s'.store w.1 = none) := by
          intro u hw hut1 hut2 hust
          rw [ArcState.writeGhostEvict] at hw
          cases hev : u.evict with
          | none => rw [hev] at hw; cases hw
          | some r =>
            obtain ⟨s2, wbs⟩ := r
            rw [hev] at hw
            simp only [Option.some_inj] at hw
            cases hw
            refine missCase u s2 _ true hev hust
              (by rw [hut1]; exact hp1) (by rw [hut2]; exact hp2) rfl ?_
            intro b
            rw [installMiss_true_eq]
            by_cases hbp : b = pos
            · subst hbp; simp
            · simp only [if_neg hbp]
              rfl
        split at h
        · exact hfin _ h rfl rfl rfl
        · split at h
          · cases h
          · exact hfin _ h rfl rfl rfl


/-- Spec-side bookkeeping for C5: fold one operation into the
"last value written per block" map. -/
def updW (w : Nat → Option Nat) (op : CacheOp) : Nat → Option Nat :=
  match op with
  | .write p v => fun b => if p = b then some v else w b
  | .read _ => w

/-- The value of the most recent cache-level write to each block of a
trace (`none` when the trace never wrote the block). -/
def lastWrite (ops : List CacheOp) : Nat → Option Nat :=
  ops.foldl updW (fun _ => none)

/-- One step preserves "every dirty entry holds the bytes of the last
cache-level write to its block". -/
lemma dirty_step {w : Nat → Option Nat} {op : CacheOp} {s s' : ArcState}
    {log : List (Nat × Nat)} (hi : Inv s) (h : stepOp op s = some (s', log))
    (hw : ∀ b blk, s.store b = some blk → blk.isDirty = true → w b = some blk.data) :
    ∀ b blk, s'.store b = some blk → blk.isDirty = true →
      updW w op b = some blk.data := by
  cases op with
  | read pos =>
    simp only [stepOp, Option.map_eq_some'] at h
    obtain ⟨⟨v, s'', log''⟩, hr, he⟩ := h
    cases he
    intro b blk hb hd
    exact hw b blk ((readOp_c5 hi hr).1 b blk hb hd) hd
  | write pos val =>
    intro b blk hb hd
    rcases (writeOp_c5 hi h).1 b blk hb hd with ⟨hbp, hdata⟩ | ⟨hbp, hsb⟩
    · subst hbp
      simp [updW, hdata]
    · simp only [updW]
      rw [if_neg (fun he => hbp he.symm)]
      exact hw b blk hsb hd

/-- After a completed trace, every dirty entry holds the bytes of the
trace's last cache-level write to its block. -/
lemma dirty_runTrace {ops : List CacheOp} {s0 s : ArcState} {w0 : Nat → Option Nat}
    (hi0 : Inv s0) (hrun : runTrace ops s0 = some s)
    (h0 : ∀ b blk, s0.store b = some blk → blk.isDirty = true → w0 b = some blk.data) :
    ∀ b blk, s.store b = some blk → blk.isDirty = true →
      ops.foldl updW w0 b = some blk.data := by
  induction ops generalizing s0 w0 with
  | nil =>
    rw [runTrace, Option.some_inj] at hrun
    subst hrun
    simpa using h0
  | cons op rest ih =>
    rw [runTrace] at hrun
    cases hstep : stepOp op s0 with
    | none => rw [hstep] at hrun; cases hrun
    | some r =>
      obtain ⟨s1, log1⟩ := r
      rw [hstep] at hrun
      obtain ⟨hi1, -⟩ := inv_stepOp hi0 hstep
      rw [List.foldl_cons]
      exact ih hi1 hrun (dirty_step hi0 hstep h0)

/-- **C5** (confirmed).  For every trace of cache reads and writes and
every further completed operation: when that operation drops a block
from the data store (an eviction), a dirty block causes exactly one
write to the underlying device — of exactly its cached bytes, which are
the bytes of the trace's last cache-level write to it — while a clean
block causes none; and every write the operation issues to the
underlying device is such a dirty eviction.  (In `evict` the write-back
is issued before the entry is removed from the data store.) -/
theorem c5_dirty_writeback (ops : List CacheOp) (c : Nat) (dev : Nat → Nat)
    (s : ArcState) (h1 : runTrace ops (ArcState.new dev c) = some s)
    (op : CacheOp) (s' : ArcState) (log : List (Nat × Nat))
    (h2 : stepOp op s = some (s', log)) :
    (∀ b blk, s.store b = some blk → s'.store b = none →
       (blk.isDirty = true →
          log = [(b, blk.data)] ∧ lastWrite ops b = some blk.data) ∧
       (blk.isDirty = false → log = [])) ∧
    (∀ w ∈ log, ∃ blk, s.store w.1 = some blk ∧ blk.isDirty = true ∧
       w.2 = blk.data ∧ s'.store w.1 = none) := by
  obtain ⟨hi, -⟩ := inv_runTrace (inv_new dev c) h1
  have hlast : ∀ b blk, s.store b = some blk → blk.isDirty = true →
      lastWrite ops b = some blk.data := by
    refine dirty_runTrace (inv_new dev c) h1 ?_
    intro b blk hb
    simp only [ArcState.new] at hb
    cases hb
  cases op with
  | read pos =>
    simp only [stepOp, Option.map_eq_some'] at h2
    obtain ⟨⟨v, s'', log''⟩, hr, he⟩ := h2
    cases he
    obtain ⟨-, c2, c3⟩ := readOp_c5 hi hr
    refine ⟨?_, c3⟩
    intro b blk hb hn
    exact ⟨fun hd => ⟨(c2 b blk hb hn).1 hd, hlast b blk hb hd⟩, (c2 b blk hb hn).2⟩
  | write pos val =>
    obtain ⟨-, c2, c3⟩ := writeOp_c5 hi h2
    refine ⟨?_, c3⟩
    intro b blk hb hn
    exact ⟨fun hd => ⟨(c2 b blk hb hn).1 hd, hlast b blk hb hd⟩, (c2 b blk hb hn).2⟩

/-- Witness for C5: block 0 is written (value 7) into a capacity-1
cache, and the next read of block 1 evicts it; the theorem applies. -/
theorem c5_dirty_writeback_witness :
    (runTrace [CacheOp.write 0 7] (ArcState.new (fun b => b + 100) 1)).elim False
      (fun s => (stepOp (CacheOp.read 1) s).elim False (fun r =>
        (∀ b blk, s.store b = some blk → r.1.store b = none →
           (blk.isDirty = true →
              r.2 = [(b, blk.data)] ∧
              lastWrite [CacheOp.write 0 7] b = some blk.data) ∧
           (blk.isDirty = false → r.2 = [])) ∧
        (∀ w ∈ r.2, ∃ blk, s.store w.1 = some blk ∧ blk.isDirty = true ∧
           w.2 = blk.data ∧ r.1.store w.1 = none))) := by
  obtain ⟨s, r, hs, hr⟩ : ∃ s r,
      runTrace [CacheOp.write 0 7] (ArcState.new (fun b => b + 100) 1) = some s ∧
      stepOp (CacheOp.read 1) s = some r := ⟨_, _, rfl, rfl⟩
  rw [hs]
  simp only [Option.elim]
  rw [hr]
  simp only [Option.elim]
  exact c5_dirty_writeback [CacheOp.write 0 7] 1 (fun b => b + 100) s hs
    (CacheOp.read 1) r.1 r.2 (by rw [hr])

/-- The 16-operation read trace whose final operation exhibits C8's
counterexample. -/
def c8Trace : List CacheOp :=
  [CacheOp.read 1, CacheOp.read 2, CacheOp.read 3, CacheOp.read 4, CacheOp.read 5,
   CacheOp.read 1, CacheOp.read 2, CacheOp.read 3, CacheOp.read 6, CacheOp.read 7,
   CacheOp.read 8, CacheOp.read 9, CacheOp.read 4, CacheOp.read 1, CacheOp.read 2,
   CacheOp.read 3]

/-- **C8, counterexample**.  On a capacity-4 cache, after `c8Trace` the
state has `p = 1`, `|B1| = 4`, `|B2| = 1` and block 5 in `B1`; the
claim's delta for the next read of block 5 is
`max(1, |B2|/|B1|) = max(1, 1/4) = 1`, so the claim predicts
`p = min(1+1, 4) = 2` — but the code computes `p = 4` (it divides the
longer ghost list's length by the shorter's, after the removal:
`delta = 3/1 = 3`). -/
theorem c8_adaptation_counterexample :
    ((runTrace c8Trace (ArcState.new (fun b => b + 100) 4)).map
       (fun s => (s.p, s.b1.length, s.b2.length, decide (5 ∈ s.b1))) =
      some (1, 4, 1, true)) ∧
    ((runTrace (c8Trace ++ [CacheOp.read 5]) (ArcState.new (fun b => b + 100) 4)).map
       (fun s => s.p) = some 4) ∧
    min (1 + max 1 (1 / 4)) 4 = 2 := by
  refine ⟨by decide, by decide, by decide⟩

/-- Witness-style check for C8's amended theorem: a concrete completed
`B1` read hit where the code's formula gives `delta = 3`. -/
theorem c8_adaptation_witness :
    ((runTrace (c8Trace ++ [CacheOp.read 5]) (ArcState.new (fun b => b + 100) 4)).map
       (fun s => s.p) = some 4) ∧ min (1 + 3 / 1) 4 = 4 := by
  refine ⟨by decide, by decide⟩


end Arc

namespace Fs

/-! ### Bitmap (`bitmap.rs`) and free map (`free_map.rs`)

The bitmap is a `count`-bit vector; the packing into `u32` words is
observationally irrelevant and the bits are modelled as a function.
All in-model calls respect the source's `assert!(bit < count)`. -/

structure Bitmap where
  count : Nat
  bits : Nat → Bool

/-- `Bitmap::new`: all bits clear. -/
def Bitmap.new (count : Nat) : Bitmap := ⟨count, fun _ => false⟩

/-- `Bitmap::test`. -/
def Bitmap.test (bm : Bitmap) (bit : Nat) : Bool := bm.bits bit

/-- `Bitmap::mark`. -/
def Bitmap.mark (bm : Bitmap) (bit : Nat) : Bitmap :=
  ⟨bm.count, fun b => if b = bit then true else bm.bits b⟩

/-- `Bitmap::compare_and_flip`: mark and report `true` iff the bit was
clear. -/
def Bitmap.compareAndFlip (bm : Bitmap) (bit : Nat) : Bitmap × Bool :=
  if bm.test bit then (bm, false) else (bm.mark bit, true)

/-- Reserved inumbers (`filesys.rs`). -/
def ROOT_INODE : Nat := 0

/-- Block 1 is reserved for the free-map inode (`filesys.rs`). -/
def FREE_MAP_INODE : Nat := 1

/-- The free map (`free_map.rs`); its backing `VFile` is never used by
the current code and is not modelled. -/
structure FreeMap where
  bitmap : Bitmap

/-- `FreeMap::init`: all clear except the two reserved inode blocks. -/
def FreeMap.init (bits : Nat) : FreeMap :=
  ⟨((Bitmap.new bits).mark ROOT_INODE).mark FREE_MAP_INODE⟩

/-- Convenience accessor for statements. -/
def FreeMap.test (fm : FreeMap) (bit : Nat) : Bool := fm.bitmap.test bit

/-- The scan loop of `FreeMap::allocate`: walk bit indices from `idx`
(`fuel` of them remain before `idx` reaches the bitmap's bit count)
while fewer than `need` bits have been obtained, marking each clear bit
and recording its index.  Bits marked on the way are *not* rolled back
when the scan falls short. -/
def FreeMap.allocLoop (bm : Bitmap) (need idx : Nat) (fuel : Nat)
    (acc : List Nat) : Bitmap × List Nat :=
  match fuel with
  | 0 => (bm, acc)
  | fuel + 1 =>
    if acc.length < need then
      let r := bm.compareAndFlip idx
      FreeMap.allocLoop r.1 need (idx + 1) fuel (if r.2 then acc ++ [idx] else acc)
    else (bm, acc)

/-- `FreeMap::allocate(blocks, dst)`: returns the updated free map, the
updated `dst` (extended by the obtained indices only on full success),
and the success flag.  On shortfall the marked bits stay marked. -/
def FreeMap.allocate (fm : FreeMap) (blocks : Nat) (dst : List Nat) :
    FreeMap × List Nat × Bool :=
  match FreeMap.allocLoop fm.bitmap blocks 0 fm.bitmap.count [] with
  | (bm, acc) =>
    if acc.length = blocks then (⟨bm⟩, dst ++ acc, true) else (⟨bm⟩, dst, false)

/-! ### The block device

`Size = u64` and `Ofs = i64` (from the crate root, as the example
harness passes `u64`/`i64` literals), so a block number is a `Nat`, a
file offset an `Int`, and `W = 8`, `P = BLOCK_SIZE / 8 = 128`.  A
block's contents are a byte function `Nat → Nat`; the disk also keeps
the ordered log of block numbers written, to state frame conditions. -/

structure Disk where
  mem : Nat → Nat → Nat
  log : List Nat

/-- `BlockDevice::write` (the contents of one whole block replaced). -/
def Disk.writeBlock (d : Disk) (data : Nat → Nat) (blockNum : Nat) : Disk :=
  ⟨fun b => if b = blockNum then data else d.mem b, d.log ++ [blockNum]⟩

/-- `BlockDevice::read` of one whole block. -/
def Disk.readBlock (d : Disk) (blockNum : Nat) : Nat → Nat := d.mem blockNum

/-- Byte `i` of the little-endian encoding of a `u64`. -/
def u64Byte (v i : Nat) : Nat := v / 256 ^ i % 256

/-- Read a little-endian `u64` from eight bytes at `ofs`. -/
def leRead8 (f : Nat → Nat) (ofs : Nat) : Nat :=
  f ofs + 256 * (f (ofs + 1) + 256 * (f (ofs + 2) + 256 * (f (ofs + 3) +
    256 * (f (ofs + 4) + 256 * (f (ofs + 5) + 256 * (f (ofs + 6) +
      256 * f (ofs + 7)))))))

/-- `PTRS_PER_BLOCK = BLOCK_SIZE / size_of::<Size>() = 1024 / 8`. -/
def PTRS_PER_BLOCK : Nat := 128

/-- A `PtrBlock` (`[Size; 128]`) reinterpreted as block bytes
(`transmute`, little-endian). -/
def ptrsToBytes (ptrs : List Nat) : Nat → Nat :=
  fun i => u64Byte (ptrs.getD (i / 8) 0) (i % 8)

/-- Block bytes reinterpreted as a `PtrBlock` (`transmute`). -/
def bytesToPtrs (f : Nat → Nat) : List Nat :=
  (List.range PTRS_PER_BLOCK).map (fun j => leRead8 f (8 * j))

/-! ### The on-disk inode (`inode.rs`) -/

def INODE_MAGIC : Nat := 0x8BCEFADC

/-- `InodeDisk` (`repr(C)`): 4 direct pointers, 1 indirect, 1 doubly
indirect, magic, length; `unused` padding is identically zero. -/
structure InodeDisk where
  direct : List Nat
  indirect : List Nat
  doublyIndirect : List Nat
  magic : Nat
  len : Nat
deriving DecidableEq, Repr

/-- `InodeDisk::default()`. -/
def InodeDisk.default : InodeDisk := ⟨[0, 0, 0, 0], [0], [0], INODE_MAGIC, 0⟩

/-- `InodeDisk` reinterpreted as block bytes (`transmute`): fields in
declaration order at byte offsets 0, 32, 40, 48, 56, zero padding. -/
def InodeDisk.toBytes (d : InodeDisk) : Nat → Nat := fun i =>
  if i < 32 then u64Byte (d.direct.getD (i / 8) 0) (i % 8)
  else if i < 40 then u64Byte (d.indirect.getD 0 0) (i % 8)
  else if i < 48 then u64Byte (d.doublyIndirect.getD 0 0) (i % 8)
  else if i < 56 then u64Byte d.magic (i % 8)
  else if i < 64 then u64Byte d.len (i % 8)
  else 0

/-- Block bytes reinterpreted as an `InodeDisk` (`transmute`, used by
`open_inode`). -/
def bytesToInodeDisk (f : Nat → Nat) : InodeDisk :=
  ⟨[leRead8 f 0, leRead8 f 8, leRead8 f 16, leRead8 f 24],
   [leRead8 f 32], [leRead8 f 40], leRead8 f 48, leRead8 f 56⟩

/-- The in-memory `Inode`. -/
structure Inode where
  openCount : Nat
  block : Nat
  data : InodeDisk
deriving DecidableEq, Repr

/-- `InodeDisk::direct_range`: walk the entries, skipping `skip`
leading ones, then emitting block numbers while `count` lasts. -/
def directRange (skip count : Nat) (direct : List Nat) (blocks : List Nat) :
    Nat × Nat × List Nat :=
  match direct with
  | [] => (skip, count, blocks)
  | d :: rest =>
    if count = 0 then (skip, count, blocks)
    else if 0 < skip then directRange (skip - 1) count rest blocks
    else directRange skip (count - 1) rest (blocks ++ [d])

/-- `InodeDisk::indirect_range`: for each indirection pointer, read its
block and walk it as a direct range. -/
def indirectRange (skip count : Nat) (indirect : List Nat) (blocks : List Nat)
    (dsk : Disk) : Nat × Nat × List Nat :=
  match indirect with
  | [] => (skip, count, blocks)
  | ind :: rest =>
    if count = 0 then (skip, count, blocks)
    else
      let r := directRange skip count (bytesToPtrs (dsk.readBlock ind)) blocks
      indirectRange r.1 r.2.1 rest r.2.2 dsk

/-- `InodeDisk::doubly_indirect_range`. -/
def doublyIndirectRange (skip count : Nat) (doubly : List Nat) (blocks : List Nat)
    (dsk : Disk) : Nat × Nat × List Nat :=
  match doubly with
  | [] => (skip, count, blocks)
  | dbl :: rest =>
    if count = 0 then (skip, count, blocks)
    else
      let r := indirectRange skip count (bytesToPtrs (dsk.readBlock dbl)) blocks dsk
      doublyIndirectRange r.1 r.2.1 rest r.2.2 dsk

/-- `InodeDisk::block_range(buf_len, offset)`: the ordered data-block
numbers covering the byte range.  `offset as usize` is non-negative at
every call site, so the cast is `Int.toNat`. -/
def blockRange (data : InodeDisk) (bufLen : Nat) (offset : Int) (dsk : Disk) :
    List Nat :=
  let skip := offset.toNat / BLOCK_SIZE
  let count := divCeil bufLen BLOCK_SIZE
  let r1 := directRange skip count data.direct []
  let r2 := indirectRange r1.1 r1.2.1 data.indirect r1.2.2 dsk
  let r3 := doublyIndirectRange r2.1 r2.2.1 data.doublyIndirect r2.2.2 dsk
  r3.2.2

/-- The loop of `Inode::read_at`, accumulating the bytes read.  The
source fetches the next block number *before* the `chunk_size <= 0`
check, so an exhausted block iterator panics (`expect`) even at end of
file.  `fuel` only bounds the recursion; the initial fuel `size + 1`
is never exhausted because every continuing iteration moves at least
one byte. -/
def readAtLoop (dsk : Disk) (inodeLen : Nat) (blocks : List Nat)
    (size ofs : Int) (acc : List Nat) (fuel : Nat) : Option (List Nat) :=
  match fuel with
  | 0 => none
  | fuel + 1 =>
    if 0 < size then
      let blockOfs := ofs % 1024
      match blocks with
      | [] => none
      | blockIdx :: rest =>
        let inodeLeft : Int := (inodeLen : Int) - ofs
        let chunk := min size (min inodeLeft (1024 - blockOfs))
        if chunk ≤ 0 then some acc
        else
          let bytes := (List.range chunk.toNat).map
            (fun j => dsk.readBlock blockIdx (blockOfs.toNat + j))
          readAtLoop dsk inodeLen rest (size - chunk) (ofs + chunk) (acc ++ bytes) fuel
    else some acc

/-- `Inode::read_at`: the bytes read (their count is the source's
return value); `none` on a panic. -/
def readAt (data : InodeDisk) (bufLen : Nat) (offset : Int) (dsk : Disk) :
    Option (List Nat) :=
  readAtLoop dsk data.len (blockRange data bufLen offset dsk) (bufLen : Int)
    offset [] (bufLen + 1)

/-- The loop of `Inode::write_at`: read-modify-write through a bounce
buffer.  `bufPos` is how far the user buffer has been consumed (and so
the running `bytes_written`). -/
def writeAtLoop (inodeLen : Nat) (blocks : List Nat) (buffer : List Nat)
    (bufPos : Nat) (size ofs : Int) (dsk : Disk) (fuel : Nat) :
    Option (Nat × Disk) :=
  match fuel with
  | 0 => none
  | fuel + 1 =>
    if 0 < size then
      let blockOfs := ofs % 1024
      match blocks with
      | [] => none
      | blockIdx :: rest =>
        let inodeLeft : Int := (inodeLen : Int) - ofs
        let chunk := min size (min inodeLeft (1024 - blockOfs))
        if chunk ≤ 0 then some (bufPos, dsk)
        else
          let bounce := dsk.readBlock blockIdx
          let newBytes : Nat → Nat := fun i =>
            if blockOfs.toNat ≤ i ∧ i < blockOfs.toNat + chunk.toNat then
              buffer.getD (bufPos + (i - blockOfs.toNat)) 0
            else bounce i
          writeAtLoop inodeLen rest buffer (bufPos + chunk.toNat) (size - chunk)
            (ofs + chunk) (dsk.writeBlock newBytes blockIdx) fuel
    else some (bufPos, dsk)

/-- `Inode::write_at`: bytes written and the updated disk. -/
def writeAt (data : InodeDisk) (buffer : List Nat) (offset : Int) (dsk : Disk) :
    Option (Nat × Disk) :=
  writeAtLoop data.len (blockRange data buffer.length offset dsk) buffer 0
    (buffer.length : Int) offset dsk (buffer.length + 1)

/-! ### Inode creation and growth (`inode.rs`) -/

/-- `fill_direct(skip, dst, blocks)`: walk `dst`, decrementing `skip`
over leading entries, then overwriting entries with drawn block numbers
until the iterator runs dry.  Returns the final skip, the updated
`dst`, and the rest of the iterator. -/
def fillDirect (skip : Nat) (dst : List Nat) (blocks : List Nat) :
    Nat × List Nat × List Nat :=
  match dst with
  | [] => (skip, [], blocks)
  | e :: rest =>
    match skip with
    | skip' + 1 =>
      let r := fillDirect skip' rest blocks
      (r.1, e :: r.2.1, r.2.2)
    | 0 =>
      match blocks with
      | [] => (0, e :: rest, [])
      | blk :: bs =>
        let r := fillDirect 0 rest bs
        (r.1, blk :: r.2.1, r.2.2)

/-- `fill_indirect(skip, dst, blocks, disk)`: each slot of `dst` draws
one block number for the indirection block itself, fills a fresh
128-pointer block from the iterator with `fill_direct`, and writes it
to the drawn block. -/
def fillIndirect (skip : Nat) (dst : List Nat) (blocks : List Nat) (dsk : Disk) :
    Nat × List Nat × List Nat × Disk :=
  match dst with
  | [] => (skip, [], blocks, dsk)
  | e :: rest =>
    match blocks with
    | [] => (skip, e :: rest, [], dsk)
    | blk :: bs =>
      let r := fillDirect skip (List.replicate PTRS_PER_BLOCK 0) bs
      let dsk1 := dsk.writeBlock (ptrsToBytes r.2.1) blk
      let r2 := fillIndirect r.1 rest r.2.2 dsk1
      (r2.1, blk :: r2.2.1, r2.2.2.1, r2.2.2.2)

/-- `fill_doubly_indirect(skip, dst, blocks, disk)`: each slot draws one
block number, fills a fresh 128-pointer block with `fill_indirect`, and
writes it there. -/
def fillDoublyIndirect (skip : Nat) (dst : List Nat) (blocks : List Nat)
    (dsk : Disk) : Nat × List Nat × List Nat × Disk :=
  match dst with
  | [] => (skip, [], blocks, dsk)
  | e :: rest =>
    match blocks with
    | [] => (skip, e :: rest, [], dsk)
    | blk :: bs =>
      let r := fillIndirect skip (List.replicate PTRS_PER_BLOCK 0) bs dsk
      let dsk1 := r.2.2.2.writeBlock (ptrsToBytes r.2.1) blk
      let r2 := fillDoublyIndirect r.1 rest r.2.2.1 dsk1
      (r2.1, blk :: r2.2.1, r2.2.2.1, r2.2.2.2)

/-- What `InodeManager::create_inode` leaves behind: the created inode
(`none` when the source panics at `blocks.next().expect("block not
found")` because the ignored `allocate` failed and returned no blocks),
the free map (whose bits stay marked even then), the disk, and the
open-inode list. -/
structure CreateOut where
  res : Option (Nat × InodeDisk)
  fm : FreeMap
  dsk : Disk
  openList : List Inode

/-- `InodeManager::create_inode(length, disk, free_map)`.  Allocates
`1 + ceil(length/B)` blocks in one `allocate` call (its boolean result
is ignored by the source), uses the first as the inode block, fills
`direct`, then `indirect` — and then passes `&mut data.indirect` to
`fill_doubly_indirect` again (the source bug: `doubly_indirect` is
never the destination), sets `len`, writes the inode block, and pushes
the inode with `open_count = 1`. -/
def createInode (length : Nat) (dsk : Disk) (fm : FreeMap)
    (openList : List Inode) : CreateOut :=
  let blockCount := divCeil length BLOCK_SIZE
  let ra := fm.allocate (1 + blockCount) []
  match ra.2.1 with
  | [] => ⟨none, ra.1, dsk, openList⟩
  | inodeBlock :: blocks =>
    let data0 := InodeDisk.default
    let r1 := fillDirect 0 data0.direct blocks
    let r2 := fillIndirect r1.1 data0.indirect r1.2.2 dsk
    let r3 := fillDoublyIndirect r2.1 r2.2.1 r2.2.2.1 r2.2.2.2
    let data := { data0 with direct := r1.2.1, indirect := r3.2.1, len := length }
    let dsk3 := r3.2.2.2.writeBlock data.toBytes inodeBlock
    ⟨some (inodeBlock, data), ra.1, dsk3, openList ++ [⟨1, inodeBlock, data⟩]⟩

/-- Modelled from the spec, for the refinement claim C2: the creation
algorithm exactly as the claim words it — allocate `1 + ceil(length/B)`
blocks in a single call, first block is the inode block, distribute the
remaining blocks by filling `direct`, then the `indirect` slots (one
indirection block written per used slot), then the `doubly_indirect`
slots (one pointer-to-indirect block plus its indirection blocks), set
`len = length`, write the on-disk inode to the inode block, and install
the inode in the open table with open count 1.  It differs from
`createInode` only in the destination of the doubly-indirect fill. -/
def createInodeSpec (length : Nat) (dsk : Disk) (fm : FreeMap)
    (openList : List Inode) : CreateOut :=
  let blockCount := divCeil length BLOCK_SIZE
  let ra := fm.allocate (1 + blockCount) []
  match ra.2.1 with
  | [] => ⟨none, ra.1, dsk, openList⟩
  | inodeBlock :: blocks =>
    let data0 := InodeDisk.default
    let r1 := fillDirect 0 data0.direct blocks
    let r2 := fillIndirect r1.1 data0.indirect r1.2.2 dsk
    let r3 := fillDoublyIndirect r2.1 data0.doublyIndirect r2.2.2.1 r2.2.2.2
    let data := { data0 with
      direct := r1.2.1
      indirect := r2.2.1
      doublyIndirect := r3.2.1
      len := length }
    let dsk3 := r3.2.2.2.writeBlock data.toBytes inodeBlock
    ⟨some (inodeBlock, data), ra.1, dsk3, openList ++ [⟨1, inodeBlock, data⟩]⟩

/-- `Inode::set_len(len, free_map, disk)`.  The source compares
`cur_block_count <= req_block_count` — so *growth* (and equality) takes
the "just update `len` in memory" branch, and *shrinking* reaches
`req_block_count - cur_block_count`, whose `usize` subtraction
underflows and panics in a debug build (`none` here; a release build
would wrap and mark the whole free map). -/
def setLen (ino : Inode) (len : Nat) (fm : FreeMap) (dsk : Disk) :
    Option (Inode × FreeMap × Disk) :=
  let curBlockCount := divCeil ino.data.len BLOCK_SIZE
  let reqBlockCount := divCeil len BLOCK_SIZE
  if curBlockCount ≤ reqBlockCount then
    some ({ ino with data := { ino.data with len := len } }, fm, dsk)
  else none


/-! ### Directory (`directory.rs`)

A path is a list of Unicode code points (`str::chars`); `path.len()` in
the source is the *UTF-8 byte length* of the string, while `name[i]`
indexing and `u8::try_from(char)` work per character.  A `DirEntry` is
32 bytes (`repr(C)`, `Size = u64`): `name[16]` at 0, `block` at 16,
`in_use` at 24, 7 padding bytes (uninitialised in Rust and never read;
written as 0 here). -/

def NAME_MAX : Nat := 15

def DIR_ENTRY_SIZE : Nat := 32

/-- UTF-8 encoded length of one code point. -/
def utf8Len (c : Nat) : Nat :=
  if c < 0x80 then 1 else if c < 0x800 then 2 else if c < 0x10000 then 3 else 4

/-- `path.len()`: the byte length of the UTF-8 string. -/
def strByteLen (path : List Nat) : Nat := (path.map utf8Len).sum

/-- The name-building loop shared by `lookup` and `add`:
`name[i] = path.chars()[i] as u8`.  `none` models the two panics: a
17th character indexes out of the 16-byte array, and a character above
`U+00FF` fails `u8::try_from` (`expect("encountered non-ascii
character")`).  Characters in `0x80..=0xFF` convert silently. -/
def buildName (path : List Nat) : Option (List Nat) :=
  if 16 < path.length then none
  else if path.any (fun c => 255 < c) then none
  else some (path ++ List.replicate (16 - path.length) 0)

/-- The 32 bytes of a `DirEntry` as `add` writes it. -/
def entryBytes (name16 : List Nat) (blockNum : Nat) (inUse : Bool) : List Nat :=
  name16 ++ (List.range 8).map (u64Byte blockNum) ++
    [if inUse then 1 else 0] ++ List.replicate 7 0

/-- The `name` field of a raw 32-byte entry. -/
def entryName (raw : List Nat) : List Nat := raw.take 16

/-- The `in_use` field of a raw 32-byte entry (a `bool` read back by
`transmute`; any nonzero byte reads as `true`). -/
def entryInUse (raw : List Nat) : Bool := raw.getD 24 0 ≠ 0

/-- Read one entry's 32 bytes at byte offset `start`: the source's
`read_at` into a zero-initialised buffer (bytes past the read stay
zero). -/
def readEntryRaw (data : InodeDisk) (start : Int) (dsk : Disk) :
    Option (List Nat) :=
  (readAt data DIR_ENTRY_SIZE start dsk).map
    (fun bytes => bytes ++ List.replicate (DIR_ENTRY_SIZE - bytes.length) 0)

/-- The scan loop of `Dir::lookup`: entries at offsets 0, 32, … while
`start + 32 <= len`; report whether an in-use entry with the name was
found. -/
def lookupLoop (data : InodeDisk) (dsk : Disk) (name16 : List Nat)
    (start : Int) (fuel : Nat) : Option Bool :=
  match fuel with
  | 0 => none
  | fuel + 1 =>
    if start.toNat + DIR_ENTRY_SIZE ≤ data.len then
      match readEntryRaw data start dsk with
      | none => none
      | some raw =>
        if entryInUse raw ∧ entryName raw = name16 then some true
        else lookupLoop data dsk name16 (start + 32) fuel
    else some false

/-- `Dir::lookup` (the found-inumber out-parameter is not needed by the
claims).  An empty or over-long path is the source's
`panic!("should not call this without valid name")`. -/
def dirLookup (data : InodeDisk) (path : List Nat) (dsk : Disk) : Option Bool :=
  if path = [] ∨ NAME_MAX < strByteLen path then none
  else
    match buildName path with
    | none => none
    | some name16 => lookupLoop data dsk name16 0 (data.len / DIR_ENTRY_SIZE + 1)

/-- The free-slot scan of `Dir::add`: note the strict
`start + 32 < len` bound (the last full slot is never examined).  When
a free slot is found the new entry is written over it in place.
`some none` means the scan found no free slot. -/
def addScanLoop (data : InodeDisk) (name16 : List Nat) (blockNum : Nat)
    (dsk : Disk) (start : Int) (fuel : Nat) : Option (Option Disk) :=
  match fuel with
  | 0 => none
  | fuel + 1 =>
    if start.toNat + DIR_ENTRY_SIZE < data.len then
      match readEntryRaw data start dsk with
      | none => none
      | some raw =>
        if entryInUse raw then addScanLoop data name16 blockNum dsk (start + 32) fuel
        else
          match writeAt data (entryBytes name16 blockNum true) start dsk with
          | none => none
          | some r => some (some r.2)
    else some none

/-- `Dir::add(path, block, free_map, disk)`: build the name (panics
propagate), reject empty/over-long names, fail on a name collision,
reuse the first free slot, else grow the directory inode by one entry
with `set_len` and append — at byte offset
`old_len.div_ceil(size_of::<DirEntry>())`, the source's append-offset
bug. -/
def dirAdd (ino : Inode) (path : List Nat) (blockNum : Nat) (fm : FreeMap)
    (dsk : Disk) : Option (Bool × Inode × FreeMap × Disk) :=
  match buildName path with
  | none => none
  | some name16 =>
    if path = [] ∨ NAME_MAX < strByteLen path then some (false, ino, fm, dsk)
    else
      match dirLookup ino.data path dsk with
      | none => none
      | some true => some (false, ino, fm, dsk)
      | some false =>
        match addScanLoop ino.data name16 blockNum dsk 0
            (ino.data.len / DIR_ENTRY_SIZE + 1) with
        | none => none
        | some (some dsk') => some (true, ino, fm, dsk')
        | some none =>
          match setLen ino (ino.data.len + DIR_ENTRY_SIZE) fm dsk with
          | none => none
          | some (ino1, fm1, dsk1) =>
            match writeAt ino1.data (entryBytes name16 blockNum true)
                ((divCeil ino.data.len DIR_ENTRY_SIZE : Nat) : Int) dsk1 with
            | none => none
            | some r => some (true, ino1, fm1, r.2)

/-- One byte of a UTF-8 continuation (`0x80..=0xBF`). -/
def utf8Cont (c : Nat) : Bool := decide (0x80 ≤ c) && decide (c ≤ 0xBF)

/-- UTF-8 validity (RFC 3629), fuelled by the list length so that it
is structural. -/
def utf8ValidLoop (fuel : Nat) (l : List Nat) : Bool :=
  match fuel with
  | 0 => l.isEmpty
  | fuel + 1 =>
    match l with
    | [] => true
    | c :: rest =>
      if c ≤ 0x7F then utf8ValidLoop fuel rest
      else if 0xC2 ≤ c ∧ c ≤ 0xDF then
        match rest with
        | c2 :: r => utf8Cont c2 && utf8ValidLoop fuel r
        | [] => false
      else if c = 0xE0 then
        match rest with
        | c2 :: c3 :: r =>
          decide (0xA0 ≤ c2) && decide (c2 ≤ 0xBF) && utf8Cont c3 &&
            utf8ValidLoop fuel r
        | _ => false
      else if (0xE1 ≤ c ∧ c ≤ 0xEC) ∨ c = 0xEE ∨ c = 0xEF then
        match rest with
        | c2 :: c3 :: r => utf8Cont c2 && utf8Cont c3 && utf8ValidLoop fuel r
        | _ => false
      else if c = 0xED then
        match rest with
        | c2 :: c3 :: r =>
          decide (0x80 ≤ c2) && decide (c2 ≤ 0x9F) && utf8Cont c3 &&
            utf8ValidLoop fuel r
        | _ => false
      else if c = 0xF0 then
        match rest with
        | c2 :: c3 :: c4 :: r =>
          decide (0x90 ≤ c2) && decide (c2 ≤ 0xBF) && utf8Cont c3 &&
            utf8Cont c4 && utf8ValidLoop fuel r
        | _ => false
      else if 0xF1 ≤ c ∧ c ≤ 0xF3 then
        match rest with
        | c2 :: c3 :: c4 :: r =>
          utf8Cont c2 && utf8Cont c3 && utf8Cont c4 && utf8ValidLoop fuel r
        | _ => false
      else if c = 0xF4 then
        match rest with
        | c2 :: c3 :: c4 :: r =>
          decide (0x80 ≤ c2) && decide (c2 ≤ 0x8F) && utf8Cont c3 &&
            utf8Cont c4 && utf8ValidLoop fuel r
        | _ => false
      else false

/-- Whether a byte list is valid UTF-8 (`String::from_utf8`). -/
def utf8Valid (l : List Nat) : Bool := utf8ValidLoop l.length l

/-- The scan loop of `Dir::list`: collect the name (trimmed at its null
terminator) of every in-use entry.  `none` models the panics: a name
without a null byte (`expect("not null-terminated")`) and invalid UTF-8
(`expect` on `String::from_utf8`). -/
def dirListLoop (data : InodeDisk) (dsk : Disk) (start : Int) (fuel : Nat)
    (acc : List (List Nat)) : Option (List (List Nat)) :=
  match fuel with
  | 0 => none
  | fuel + 1 =>
    if start.toNat + DIR_ENTRY_SIZE ≤ data.len then
      match readEntryRaw data start dsk with
      | none => none
      | some raw =>
        if entryInUse raw then
          match (entryName raw).findIdx? (fun x => x = 0) with
          | none => none
          | some t =>
            let filename := (entryName raw).take t
            if utf8Valid filename then
              dirListLoop data dsk (start + 32) fuel (acc ++ [filename])
            else none
        else dirListLoop data dsk (start + 32) fuel acc
    else some acc

/-- `Dir::list`: the stored names of the in-use entries, in scan
order (as byte lists; `String::from_utf8` keeps the bytes). -/
def dirList (data : InodeDisk) (dsk : Disk) : Option (List (List Nat)) :=
  dirListLoop data dsk 0 (data.len / DIR_ENTRY_SIZE + 1) []

/-! ### Open-inode table and the facade (`inode.rs`, `filesys.rs`) -/

/-- `InodeManager::open_inode`: find the open inode and bump its count,
or read and install it with count 1.  Returns the updated list, the
index of the inode, and its value. -/
def openInode (openList : List Inode) (blockNum : Nat) (dsk : Disk) :
    List Inode × Nat × Inode :=
  match openList.findIdx? (fun i => i.block = blockNum) with
  | some idx =>
    let ino := openList.getD idx ⟨0, 0, InodeDisk.default⟩
    let ino' := { ino with openCount := ino.openCount + 1 }
    (openList.set idx ino', idx, ino')
  | none =>
    let data := bytesToInodeDisk (dsk.readBlock blockNum)
    (openList ++ [⟨1, blockNum, data⟩], openList.length, ⟨1, blockNum, data⟩)

/-- The mutable filesystem state that `Filesys::create_file` touches:
the open-inode table, the free map, and the active block device. -/
structure FsState where
  openList : List Inode
  fm : FreeMap
  dsk : Disk

/-- `Filesys::create_file(path, length)`: create the inode *first*
(allocating its blocks and pushing it into the open table), then
resolve the root directory (`open_path` always opens the root,
bumping its open count) and try to `add` the name.  Nothing is released
when `add` fails. -/
def createFile (st : FsState) (path : List Nat) (length : Nat) :
    Option (Bool × FsState) :=
  let co := createInode length st.dsk st.fm st.openList
  match co.res with
  | none => none
  | some (inumber, _) =>
    let r := openInode co.openList ROOT_INODE co.dsk
    match dirAdd r.2.2 path inumber co.fm co.dsk with
    | none => none
    | some (ok, root', fm', dsk') => some (ok, ⟨r.1.set r.2.1 root', fm', dsk'⟩)


/-! ### Concrete states shared by the claims' evaluations -/

/-- A zeroed host disk, as `VDisk::new` presizes it. -/
def zeroDisk : Disk := ⟨fun _ _ => 0, []⟩

/-- The open root-directory inode of a fresh disk: `open_inode(0)`
reads the all-zero block 0 (nothing ever initialises the root inode on
disk), so every field is zero. -/
def emptyRoot : Inode := ⟨1, 0, bytesToInodeDisk (fun _ => 0)⟩

/-- A 30-block free map as `init_free_map` builds it. -/
def fm30 : FreeMap := FreeMap.init 30

/-- **C1** (code bug, failing input).  `set_len` grows an inode of
length 0 to 2048 bytes: the code only updates the in-memory `len` —
it allocates nothing from the free map and writes nothing to the device
(the branch condition `cur_block_count <= req_block_count` is inverted,
so the claim's "just update `len`" case and its allocation case are
swapped); and shrinking 3000 → 1000 panics on the underflowing
`req_block_count - cur_block_count` instead of just updating `len`. -/
theorem c1_set_len_failing_input :
    setLen ⟨1, 5, InodeDisk.default⟩ 2048 fm30 zeroDisk =
      some (⟨1, 5, { InodeDisk.default with len := 2048 }⟩, fm30, zeroDisk) ∧
    setLen ⟨1, 5, { InodeDisk.default with len := 3000 }⟩ 1000 fm30 zeroDisk =
      none :=
  ⟨rfl, rfl⟩

/-- The C3 failing run: on an empty root directory, `add("a", 5)` and
then `add("b", 6)` (both report success), then `list()`. -/
def c3Run : Option (Bool × Bool × List (List Nat)) :=
  (dirAdd emptyRoot [97] 5 fm30 zeroDisk).bind fun r1 =>
  (dirAdd r1.2.1 [98] 6 r1.2.2.1 r1.2.2.2).bind fun r2 =>
  (dirList r2.2.1.data r2.2.2.2).map fun l => (r1.1, r2.1, l)

/-- **C3** (code bug, failing input).  After two successful adds of the
distinct valid names "a" (byte 97) and "b" (byte 98), `list()` returns
`[]`, not `{"a", "b"}`: the second entry is appended at byte offset
`old_len.div_ceil(32) = 1` instead of 32, overwriting most of the first
entry and leaving both slots' `in_use` bytes zero.  With a single add
the claim holds (`list() = ["a"]`). -/
theorem c3_list_fidelity_failing_input :
    c3Run = some (true, true, []) ∧
    ((dirAdd emptyRoot [97] 5 fm30 zeroDisk).bind fun r1 =>
      (dirList r1.2.1.data r1.2.2.2).map fun l => (r1.1, l)) =
        some (true, [[97]]) := by
  exact ⟨by decide, by decide⟩

/-- **C4** (code bug, failing input).  Scenario S4: `block_count = 8`,
create a file of length `7 * 1024`.  `allocate(8)` finds only the six
free blocks 2–7, marks them all, and returns `false` — which
`create_inode` ignores; it then panics on `blocks.next().expect("block
not found")` instead of returning failure, and every free-map bit of
the aborted creation stays marked. -/
theorem c4_out_of_space_failing_input :
    (createInode 7168 zeroDisk (FreeMap.init 8) []).res = none ∧
    ((FreeMap.init 8).allocate 8 []).2.2 = false ∧
    (List.range 8).map (fun b => (createInode 7168 zeroDisk (FreeMap.init 8) []).fm.test b) =
      [true, true, true, true, true, true, true, true] := by
  exact ⟨by decide, by decide, by decide⟩

/-- **C9, counterexample**.  The one-character name "é" (code point
0xE9, a non-ASCII byte, 2 UTF-8 bytes) is *accepted* by `add` on an
empty root directory — it returns `true` and writes the entry — where
the claim requires `false` with the directory unchanged; and a
17-character ASCII name panics (index out of bounds on the 16-byte
name array) instead of returning `false`. -/
theorem c9_invalid_name_counterexample :
    ((dirAdd emptyRoot [233] 5 fm30 zeroDisk).map (fun r => r.1) = some true) ∧
    ((dirAdd emptyRoot (List.replicate 17 97) 5 fm30 zeroDisk).isNone = true) := by
  exact ⟨by decide, by decide⟩

/-- **C9, amended**.  `add` returns `false` and leaves everything
unchanged when the name is empty or its UTF-8 byte length exceeds
`NAME_MAX = 15`, *provided* it has at most 16 characters, all with code
points ≤ `0xFF` (more characters, or a character above `U+00FF`,
panic while the name array is built; non-ASCII bytes in `0x80..=0xFF`
within the length limit are accepted, not rejected). -/
theorem c9_invalid_name_amended (ino : Inode) (fm : FreeMap) (dsk : Disk)
    (blockNum : Nat) (path : List Nat)
    (hchars : path.length ≤ 16) (hbyte : ∀ c ∈ path, c ≤ 255)
    (hbad : path = [] ∨ NAME_MAX < strByteLen path) :
    dirAdd ino path blockNum fm dsk = some (false, ino, fm, dsk) := by
  have hany : ¬ (path.any (fun c => 255 < c) = true) := by
    simp only [List.any_eq_true, decide_eq_true_eq, not_exists, not_and, not_lt]
    exact hbyte
  have hname : buildName path =
      some (path ++ List.replicate (16 - path.length) 0) := by
    unfold buildName
    rw [if_neg (by omega), if_neg hany]
  simp only [dirAdd, hname]
  rw [if_pos hbad]

/-- Witness for C9's amended theorem: the 16-character ASCII name
"aaaaaaaaaaaaaaaa" (16 bytes > 15) is rejected with `false`. -/
theorem c9_invalid_name_amended_witness :
    (List.replicate 16 97).length ≤ 16 ∧ (∀ c ∈ List.replicate 16 97, c ≤ 255) ∧
    ((List.replicate 16 97 : List Nat) = [] ∨
      NAME_MAX < strByteLen (List.replicate 16 97)) ∧
    dirAdd emptyRoot (List.replicate 16 97) 5 fm30 zeroDisk =
      some (false, emptyRoot, fm30, zeroDisk) :=
  ⟨by decide, by decide, by decide,
   c9_invalid_name_amended emptyRoot fm30 zeroDisk 5 (List.replicate 16 97)
     (by decide) (by decide) (by decide)⟩


lemma fillDirect_zero_skip (dst blocks : List Nat) :
    (fillDirect 0 dst blocks).1 = 0 := by
  induction dst generalizing blocks with
  | nil => rfl
  | cons e rest ih =>
    cases blocks with
    | nil => rfl
    | cons blk bs =>
      show (fillDirect 0 (e :: rest) (blk :: bs)).1 = 0
      unfold fillDirect
      exact ih bs

lemma fillDirect_zero_rem (dst blocks : List Nat) :
    (fillDirect 0 dst blocks).2.2 = blocks.drop dst.length := by
  induction dst generalizing blocks with
  | nil => rfl
  | cons e rest ih =>
    cases blocks with
    | nil =>
      show ([] : List Nat) = List.drop (e :: rest).length []
      simp
    | cons blk bs =>
      show (fillDirect 0 rest bs).2.2 = List.drop rest.length bs
      exact ih bs

lemma fillIndirect_zero_one_rem (x : Nat) (blocks : List Nat) (dsk : Disk) :
    (fillIndirect 0 [x] blocks dsk).2.2.1 = blocks.drop 129 := by
  cases blocks with
  | nil => rfl
  | cons b bs =>
    show (fillIndirect 0 [x] (b :: bs) dsk).2.2.1 = bs.drop 128
    unfold fillIndirect
    simp only [fillDirect_zero_skip, fillDirect_zero_rem, List.length_replicate]
    rfl

lemma fillDoublyIndirect_nil_blocks (skip : Nat) (dst : List Nat) (dsk : Disk) :
    fillDoublyIndirect skip dst [] dsk = (skip, dst, [], dsk) := by
  cases dst <;> rfl

lemma allocate_nil_or_length (fm : FreeMap) (n : Nat) :
    (fm.allocate n []).2.1 = [] ∨ (fm.allocate n []).2.1.length = n := by
  unfold FreeMap.allocate
  split
  split
  case isTrue hl => right; simpa using hl
  case isFalse hl => left; rfl

/-- **C2, amended**.  `create_inode` behaves exactly as the claim's
algorithm (`createInodeSpec`) whenever `ceil(length/B) ≤ 133 = 4 + 1 +
128`, i.e. whenever no data blocks remain for the doubly-indirect step;
beyond that the source fills the *indirect* slot again instead of
`doubly_indirect`. -/
theorem c2_create_inode_amended (length : Nat) (dsk : Disk) (fm : FreeMap)
    (ol : List Inode) (h : divCeil length BLOCK_SIZE ≤ 133) :
    createInode length dsk fm ol = createInodeSpec length dsk fm ol := by
  rcases allocate_nil_or_length fm (1 + divCeil length BLOCK_SIZE) with hnil | hlen
  · simp only [createInode, createInodeSpec, hnil]
  · cases hma : (fm.allocate (1 + divCeil length BLOCK_SIZE) []).2.1 with
    | nil => simp only [createInode, createInodeSpec, hma]
    | cons inodeBlock blocks =>
      have hblen : blocks.length ≤ 133 := by
        rw [hma] at hlen
        simp only [List.length_cons] at hlen
        omega
      have hrem : (fillIndirect (fillDirect 0 InodeDisk.default.direct blocks).1
          InodeDisk.default.indirect
          (fillDirect 0 InodeDisk.default.direct blocks).2.2 dsk).2.2.1 = [] := by
        show (fillIndirect (fillDirect 0 [0, 0, 0, 0] blocks).1 [0]
          (fillDirect 0 [0, 0, 0, 0] blocks).2.2 dsk).2.2.1 = []
        rw [fillDirect_zero_skip, fillDirect_zero_rem, fillIndirect_zero_one_rem]
        rw [List.drop_drop]
        exact List.drop_eq_nil_of_le (by simpa using hblen)
      simp only [createInode, createInodeSpec, hma]
      rw [hrem, fillDoublyIndirect_nil_blocks, fillDoublyIndirect_nil_blocks]

/-- Witness for C2's amended theorem: creating a 5120-byte file (5 data
blocks, scenario S3's size) on a 30-block disk; the source and the
claim's algorithm coincide. -/
theorem c2_create_inode_amended_witness :
    divCeil 5120 BLOCK_SIZE ≤ 133 ∧
    createInode 5120 zeroDisk fm30 [] = createInodeSpec 5120 zeroDisk fm30 [] :=
  ⟨by decide, c2_create_inode_amended 5120 zeroDisk fm30 [] (by decide)⟩

set_option maxRecDepth 40000 in
/-- **C2, counterexample**.  Creating a file of length `137216 = 134 *
1024` (134 data blocks — 4 direct, 129 through the indirect slot, 1
left over) with enough free blocks: the source's doubly-indirect step
overwrites `indirect` with the freshly drawn block 136 and leaves
`doubly_indirect = [0]`, while the claim's algorithm fills
`doubly_indirect = [136]` and keeps `indirect = [7]`. -/
theorem c2_create_inode_counterexample :
    ((createInode 137216 zeroDisk (FreeMap.init 200) []).res.map
       (fun r => (r.2.indirect, r.2.doublyIndirect)) = some ([136], [0])) ∧
    ((createInodeSpec 137216 zeroDisk (FreeMap.init 200) []).res.map
       (fun r => (r.2.indirect, r.2.doublyIndirect)) = some ([7], [136])) := by
  exact ⟨by decide, by decide⟩



/-! ### C10: what a failed `create_file` leaves behind

The stack below characterises `FreeMap::allocate` (marked bits are
monotone and the returned indices were free), the disk footprint of
`create_inode` (it writes only to blocks drawn from the allocation),
and the disk-independence of directory reads on blocks the creation
did not touch, to settle the implicit claim about name collisions. -/

/-- `Bitmap::mark` pointwise. -/
lemma Bitmap.test_mark (bm : Bitmap) (i b : Nat) :
    (bm.mark i).test b = if b = i then true else bm.test b := rfl

/-- The allocation scan only ever marks bits, and every index it
returns was clear before the call and is marked after it. -/
lemma allocLoop_spec (fuel : Nat) :
    ∀ (bm : Bitmap) (need idx : Nat) (acc : List Nat),
    (∀ b, bm.test b = true →
      (FreeMap.allocLoop bm need idx fuel acc).1.test b = true) ∧
    ∃ new, (FreeMap.allocLoop bm need idx fuel acc).2 = acc ++ new ∧
      ∀ b ∈ new, bm.test b = false ∧
        (FreeMap.allocLoop bm need idx fuel acc).1.test b = true := by
  induction fuel with
  | zero =>
    intro bm need idx acc
    exact ⟨fun b h => h, [], by simp [FreeMap.allocLoop],
      fun b hb => absurd hb (List.not_mem_nil b)⟩
  | succ fuel ih =>
    intro bm need idx acc
    by_cases hlt : acc.length < need
    · by_cases hb : bm.test idx = true
      · have heq : FreeMap.allocLoop bm need idx (fuel + 1) acc =
            FreeMap.allocLoop bm need (idx + 1) fuel acc := by
          show (if acc.length < need then
              let r := bm.compareAndFlip idx
              FreeMap.allocLoop r.1 need (idx + 1) fuel
                (if r.2 then acc ++ [idx] else acc)
            else (bm, acc)) = FreeMap.allocLoop bm need (idx + 1) fuel acc
          rw [if_pos hlt]
          unfold Bitmap.compareAndFlip
          rw [if_pos hb]
          rfl
        rw [heq]
        exact ih bm need (idx + 1) acc
      · have hbf : bm.test idx = false := by simpa using hb
        have heq : FreeMap.allocLoop bm need idx (fuel + 1) acc =
            FreeMap.allocLoop (bm.mark idx) need (idx + 1) fuel (acc ++ [idx]) := by
          show (if acc.length < need then
              let r := bm.compareAndFlip idx
              FreeMap.allocLoop r.1 need (idx + 1) fuel
                (if r.2 then acc ++ [idx] else acc)
            else (bm, acc)) =
            FreeMap.allocLoop (bm.mark idx) need (idx + 1) fuel (acc ++ [idx])
          rw [if_pos hlt]
          unfold Bitmap.compareAndFlip
          rw [if_neg hb]
          rfl
        rw [heq]
        obtain ⟨mono, new, hacc, hnew⟩ := ih (bm.mark idx) need (idx + 1) (acc ++ [idx])
        refine ⟨?_, idx :: new, ?_, ?_⟩
        · intro b htest
          apply mono
          rw [Bitmap.test_mark]
          split
          · rfl
          · exact htest
        · rw [hacc, List.append_cons acc idx new]
        · intro b hbmem
          rcases List.mem_cons.mp hbmem with rfl | hmem
          · refine ⟨hbf, mono b ?_⟩
            rw [Bitmap.test_mark, if_pos rfl]
          · obtain ⟨h1, h2⟩ := hnew b hmem
            refine ⟨?_, h2⟩
            rw [Bitmap.test_mark] at h1
            by_cases hbi : b = idx
            · rw [if_pos hbi] at h1
              cases h1
            · rw [if_neg hbi] at h1
              exact h1
    · have heq : FreeMap.allocLoop bm need idx (fuel + 1) acc = (bm, acc) := by
        show (if acc.length < need then
            let r := bm.compareAndFlip idx
            FreeMap.allocLoop r.1 need (idx + 1) fuel
              (if r.2 then acc ++ [idx] else acc)
          else (bm, acc)) = (bm, acc)
        rw [if_neg hlt]
      rw [heq]
      exact ⟨fun b h => h, [], by simp, fun b hb => absurd hb (List.not_mem_nil b)⟩

/-- A successful `allocate(n, [])` returns exactly `n` indices, all of
them previously clear and now marked, and releases nothing. -/
lemma allocate_spec (fm : FreeMap) (n : Nat)
    (hok : (fm.allocate n []).2.2 = true) :
    (fm.allocate n []).2.1.length = n ∧
    (∀ b ∈ (fm.allocate n []).2.1,
      fm.test b = false ∧ (fm.allocate n []).1.test b = true) ∧
    (∀ b, fm.test b = true → (fm.allocate n []).1.test b = true) := by
  obtain ⟨mono, new, hacc, hnew⟩ :=
    allocLoop_spec fm.bitmap.count fm.bitmap n 0 []
  have hdef : fm.allocate n [] =
      (if (FreeMap.allocLoop fm.bitmap n 0 fm.bitmap.count []).2.length = n then
        ((⟨(FreeMap.allocLoop fm.bitmap n 0 fm.bitmap.count []).1⟩ : FreeMap),
         [] ++ (FreeMap.allocLoop fm.bitmap n 0 fm.bitmap.count []).2, true)
       else ((⟨(FreeMap.allocLoop fm.bitmap n 0 fm.bitmap.count []).1⟩ : FreeMap),
         ([] : List Nat), false)) := rfl
  by_cases hL : (FreeMap.allocLoop fm.bitmap n 0 fm.bitmap.count []).2.length = n
  · rw [hdef, if_pos hL]
    refine ⟨by simpa using hL, ?_, ?_⟩
    · intro b hb
      simp only [List.nil_append] at hb
      rw [hacc] at hb
      simp only [List.nil_append] at hb
      obtain ⟨h1, h2⟩ := hnew b hb
      exact ⟨h1, h2⟩
    · intro b htest
      exact mono b htest
  · rw [hdef, if_neg hL] at hok
    simp at hok

/-- `fill_direct` returns a suffix of its block iterator: every leftover
block number was in the input. -/
lemma fillDirect_rem_mem (dst : List Nat) (skip : Nat) (blocks : List Nat) :
    ∀ x ∈ (fillDirect skip dst blocks).2.2, x ∈ blocks := by
  induction dst generalizing skip blocks with
  | nil => intro x h; exact h
  | cons e rest ih =>
    cases skip with
    | succ s =>
      intro x h
      exact ih s blocks x h
    | zero =>
      cases blocks with
      | nil => intro x h; exact absurd h (List.not_mem_nil x)
      | cons blk bs =>
        intro x h
        exact List.mem_cons_of_mem blk (ih 0 bs x h)

/-- `fill_indirect` likewise only consumes from its iterator. -/
lemma fillIndirect_rem_mem (dst : List Nat) (skip : Nat) (blocks : List Nat)
    (dsk : Disk) :
    ∀ x ∈ (fillIndirect skip dst blocks dsk).2.2.1, x ∈ blocks := by
  induction dst generalizing skip blocks dsk with
  | nil => intro x h; exact h
  | cons e rest ih =>
    cases blocks with
    | nil => intro x h; exact absurd h (List.not_mem_nil x)
    | cons blk bs =>
      intro x h
      have h2 : x ∈ (fillDirect skip (List.replicate PTRS_PER_BLOCK 0) bs).2.2 := by
        have h1 : x ∈ (fillIndirect
            (fillDirect skip (List.replicate PTRS_PER_BLOCK 0) bs).1 rest
            (fillDirect skip (List.replicate PTRS_PER_BLOCK 0) bs).2.2
            (dsk.writeBlock
              (ptrsToBytes (fillDirect skip (List.replicate PTRS_PER_BLOCK 0) bs).2.1)
              blk)).2.2.1 := h
        exact ih _ _ _ x h1
      exact List.mem_cons_of_mem blk
        (fillDirect_rem_mem (List.replicate PTRS_PER_BLOCK 0) skip bs x h2)

/-- `fill_indirect` writes only to blocks drawn from its iterator. -/
lemma fillIndirect_frame (dst : List Nat) (skip : Nat) (blocks : List Nat)
    (dsk : Disk) (b : Nat) :
    b ∉ blocks → (fillIndirect skip dst blocks dsk).2.2.2.mem b = dsk.mem b := by
  induction dst generalizing skip blocks dsk with
  | nil => intro hb; rfl
  | cons e rest ih =>
    cases blocks with
    | nil => intro hb; rfl
    | cons blk bs =>
      intro hb
      show (fillIndirect (fillDirect skip (List.replicate PTRS_PER_BLOCK 0) bs).1 rest
          (fillDirect skip (List.replicate PTRS_PER_BLOCK 0) bs).2.2
          (dsk.writeBlock
            (ptrsToBytes (fillDirect skip (List.replicate PTRS_PER_BLOCK 0) bs).2.1)
            blk)).2.2.2.mem b = dsk.mem b
      rw [ih _ _ _ (fun hmem => hb (List.mem_cons_of_mem blk
        (fillDirect_rem_mem (List.replicate PTRS_PER_BLOCK 0) skip bs b hmem)))]
      show (if b = blk
          then ptrsToBytes (fillDirect skip (List.replicate PTRS_PER_BLOCK 0) bs).2.1
          else dsk.mem b) = dsk.mem b
      rw [if_neg (List.ne_of_not_mem_cons hb)]

/-- `fill_doubly_indirect` writes only to blocks drawn from its iterator. -/
lemma fillDoublyIndirect_frame (dst : List Nat) (skip : Nat) (blocks : List Nat)
    (dsk : Disk) (b : Nat) :
    b ∉ blocks → (fillDoublyIndirect skip dst blocks dsk).2.2.2.mem b = dsk.mem b := by
  induction dst generalizing skip blocks dsk with
  | nil => intro hb; rfl
  | cons e rest ih =>
    cases blocks with
    | nil => intro hb; rfl
    | cons blk bs =>
      intro hb
      show (fillDoublyIndirect
          (fillIndirect skip (List.replicate PTRS_PER_BLOCK 0) bs dsk).1 rest
          (fillIndirect skip (List.replicate PTRS_PER_BLOCK 0) bs dsk).2.2.1
          ((fillIndirect skip (List.replicate PTRS_PER_BLOCK 0) bs dsk).2.2.2.writeBlock
            (ptrsToBytes (fillIndirect skip (List.replicate PTRS_PER_BLOCK 0) bs dsk).2.1)
            blk)).2.2.2.mem b = dsk.mem b
      rw [ih _ _ _ (fun hmem => hb (List.mem_cons_of_mem blk
        (fillIndirect_rem_mem (List.replicate PTRS_PER_BLOCK 0) skip bs dsk b hmem)))]
      show (if b = blk
          then ptrsToBytes (fillIndirect skip (List.replicate PTRS_PER_BLOCK 0) bs dsk).2.1
          else (fillIndirect skip (List.replicate PTRS_PER_BLOCK 0) bs dsk).2.2.2.mem b) =
        dsk.mem b
      rw [if_neg (List.ne_of_not_mem_cons hb)]
      exact fillIndirect_frame (List.replicate PTRS_PER_BLOCK 0) skip bs dsk b
        (List.not_mem_of_not_mem_cons hb)

/-- The direct-fill stage of `create_inode` (abbreviation). -/
@[reducible] def ciR1 (blocks : List Nat) : Nat × List Nat × List Nat :=
  fillDirect 0 InodeDisk.default.direct blocks

/-- The indirect-fill stage of `create_inode` (abbreviation). -/
@[reducible] def ciR2 (blocks : List Nat) (dsk : Disk) :
    Nat × List Nat × List Nat × Disk :=
  fillIndirect (ciR1 blocks).1 InodeDisk.default.indirect (ciR1 blocks).2.2 dsk

/-- The (buggy) doubly-indirect stage of `create_inode` (abbreviation):
its destination is the indirect stage's output list. -/
@[reducible] def ciR3 (blocks : List Nat) (dsk : Disk) :
    Nat × List Nat × List Nat × Disk :=
  fillDoublyIndirect (ciR2 blocks dsk).1 (ciR2 blocks dsk).2.1
    (ciR2 blocks dsk).2.2.1 (ciR2 blocks dsk).2.2.2

/-- The on-disk inode `create_inode` builds (abbreviation). -/
@[reducible] def ciData (length : Nat) (blocks : List Nat) (dsk : Disk) :
    InodeDisk :=
  { InodeDisk.default with
    direct := (ciR1 blocks).2.1
    indirect := (ciR3 blocks dsk).2.1
    len := length }

/-- `create_inode` unfolded on a successful allocation. -/
lemma createInode_eq (length : Nat) (dsk : Disk) (fm : FreeMap) (ol : List Inode)
    (ib : Nat) (blocks : List Nat)
    (hma : (fm.allocate (1 + divCeil length BLOCK_SIZE) []).2.1 = ib :: blocks) :
    createInode length dsk fm ol =
      ⟨some (ib, ciData length blocks dsk),
       (fm.allocate (1 + divCeil length BLOCK_SIZE) []).1,
       (ciR3 blocks dsk).2.2.2.writeBlock (ciData length blocks dsk).toBytes ib,
       ol ++ [⟨1, ib, ciData length blocks dsk⟩]⟩ := by
  simp only [createInode, hma]

/-- What `create_inode` leaves behind when its (ignored) allocation
succeeded: the new inode, its block drawn from the allocation, the
open-table push, the free map of the allocation, and a disk frame —
blocks outside the allocation are untouched. -/
lemma createInode_spec (length : Nat) (dsk : Disk) (fm : FreeMap) (ol : List Inode)
    (hok : (fm.allocate (1 + divCeil length BLOCK_SIZE) []).2.2 = true) :
    ∃ ib data,
      (createInode length dsk fm ol).res = some (ib, data) ∧
      (createInode length dsk fm ol).openList = ol ++ [⟨1, ib, data⟩] ∧
      (createInode length dsk fm ol).fm =
        (fm.allocate (1 + divCeil length BLOCK_SIZE) []).1 ∧
      ib ∈ (fm.allocate (1 + divCeil length BLOCK_SIZE) []).2.1 ∧
      ∀ b, b ∉ (fm.allocate (1 + divCeil length BLOCK_SIZE) []).2.1 →
        (createInode length dsk fm ol).dsk.mem b = dsk.mem b := by
  obtain ⟨hlen, hbits, hmono⟩ := allocate_spec fm (1 + divCeil length BLOCK_SIZE) hok
  cases hma : (fm.allocate (1 + divCeil length BLOCK_SIZE) []).2.1 with
  | nil =>
    rw [hma] at hlen
    simp only [List.length_nil] at hlen
    omega
  | cons ib blocks =>
    rw [createInode_eq length dsk fm ol ib blocks hma]
    refine ⟨ib, ciData length blocks dsk, rfl, rfl, rfl, ?_, ?_⟩
    · exact List.mem_cons_self ib blocks
    · intro b hb
      have hbib : b ≠ ib := List.ne_of_not_mem_cons hb
      have hbbl : b ∉ blocks := List.not_mem_of_not_mem_cons hb
      show ((ciR3 blocks dsk).2.2.2.writeBlock
        (ciData length blocks dsk).toBytes ib).mem b = dsk.mem b
      have h1 : ((ciR3 blocks dsk).2.2.2.writeBlock
          (ciData length blocks dsk).toBytes ib).mem b =
          (ciR3 blocks dsk).2.2.2.mem b := by
        show (if b = ib then (ciData length blocks dsk).toBytes
            else (ciR3 blocks dsk).2.2.2.mem b) = (ciR3 blocks dsk).2.2.2.mem b
        rw [if_neg hbib]
      rw [h1]
      have hbrem2 : b ∉ (ciR2 blocks dsk).2.2.1 := fun hmem =>
        hbbl (fillDirect_rem_mem _ _ _ b
          (fillIndirect_rem_mem _ _ _ _ b hmem))
      have h2 : (ciR3 blocks dsk).2.2.2.mem b = (ciR2 blocks dsk).2.2.2.mem b :=
        fillDoublyIndirect_frame _ _ _ _ b hbrem2
      rw [h2]
      have hbrem1 : b ∉ (ciR1 blocks).2.2 := fun hmem =>
        hbbl (fillDirect_rem_mem _ _ _ b hmem)
      exact fillIndirect_frame _ _ _ _ b hbrem1

/-- `direct_range` with no blocks left to emit is the identity. -/
lemma directRange_count0 (skip : Nat) (l blocks : List Nat) :
    directRange skip 0 l blocks = (skip, 0, blocks) := by
  cases l with
  | nil => rfl
  | cons d rest => simp [directRange]

/-- `indirect_range` with no blocks left to emit is the identity. -/
lemma indirectRange_count0 (skip : Nat) (l blocks : List Nat) (dsk : Disk) :
    indirectRange skip 0 l blocks dsk = (skip, 0, blocks) := by
  cases l with
  | nil => rfl
  | cons d rest => simp [indirectRange]

/-- `doubly_indirect_range` with no blocks left to emit is the identity. -/
lemma doublyIndirectRange_count0 (skip : Nat) (l blocks : List Nat) (dsk : Disk) :
    doublyIndirectRange skip 0 l blocks dsk = (skip, 0, blocks) := by
  cases l with
  | nil => rfl
  | cons d rest => simp [doublyIndirectRange]

/-- A one-block `direct_range` within the direct pointers. -/
lemma directRange_one (direct : List Nat) (skip : Nat) (h : skip < direct.length) :
    directRange skip 1 direct [] = (0, 0, [direct.getD skip 0]) := by
  induction direct generalizing skip with
  | nil => simp at h
  | cons d rest ih =>
    cases skip with
    | zero =>
      show directRange 0 1 (d :: rest) [] = (0, 0, [d])
      unfold directRange
      rw [if_neg (by decide), if_neg (by decide)]
      exact directRange_count0 0 rest [d]
    | succ s =>
      show directRange (s + 1) 1 (d :: rest) [] = (0, 0, [rest.getD s 0])
      unfold directRange
      rw [if_neg (by decide), if_pos (by omega)]
      exact ih s (by simp at h; omega)

/-- The block range of a 32-byte read that lands in the direct
pointers: a single block, read from no indirection block. -/
lemma blockRange_direct (data : InodeDisk) (offset : Int) (dsk : Disk)
    (hsk : offset.toNat / BLOCK_SIZE < data.direct.length) :
    blockRange data DIR_ENTRY_SIZE offset dsk =
      [data.direct.getD (offset.toNat / BLOCK_SIZE) 0] := by
  have hc : divCeil DIR_ENTRY_SIZE BLOCK_SIZE = 1 := by decide
  simp only [blockRange, hc, directRange_one data.direct _ hsk,
    indirectRange_count0, doublyIndirectRange_count0]

/-- The read loop only consults the disk through its block list. -/
lemma readAtLoop_congr (fuel : Nat) (dsk1 dsk2 : Disk) (inodeLen : Nat) :
    ∀ (blocks : List Nat) (size ofs : Int) (acc : List Nat),
    (∀ b ∈ blocks, dsk1.mem b = dsk2.mem b) →
    readAtLoop dsk1 inodeLen blocks size ofs acc fuel =
      readAtLoop dsk2 inodeLen blocks size ofs acc fuel := by
  induction fuel with
  | zero => intro blocks size ofs acc hag; cases blocks <;> rfl
  | succ fuel ih =>
    intro blocks size ofs acc hag
    unfold readAtLoop
    by_cases hs : 0 < size
    · rw [if_pos hs, if_pos hs]
      cases blocks with
      | nil => rfl
      | cons blockIdx rest =>
        have hrb : dsk1.readBlock blockIdx = dsk2.readBlock blockIdx :=
          hag blockIdx (List.mem_cons_self blockIdx rest)
        simp only [hrb]
        by_cases hch :
            min size (min ((inodeLen : Int) - ofs) (1024 - ofs % 1024)) ≤ 0
        · rw [if_pos hch, if_pos hch]
        · rw [if_neg hch, if_neg hch]
          exact ih rest _ _ _ (fun b hb => hag b (List.mem_cons_of_mem blockIdx hb))
    · rw [if_neg hs, if_neg hs]

/-- A 32-byte `read_at` that lands in the direct pointers depends only
on the direct blocks' contents. -/
lemma readAt32_congr (data : InodeDisk) (offset : Int) (dsk1 dsk2 : Disk)
    (hsk : offset.toNat / BLOCK_SIZE < data.direct.length)
    (hag : ∀ b ∈ data.direct, dsk1.mem b = dsk2.mem b) :
    readAt data DIR_ENTRY_SIZE offset dsk1 = readAt data DIR_ENTRY_SIZE offset dsk2 := by
  unfold readAt
  rw [blockRange_direct data offset dsk1 hsk, blockRange_direct data offset dsk2 hsk]
  apply readAtLoop_congr
  intro b hb
  have hbeq : b = data.direct.getD (offset.toNat / BLOCK_SIZE) 0 := by
    simpa using hb
  rw [hbeq, List.getD_eq_getElem data.direct 0 hsk]
  exact hag _ (List.getElem_mem hsk)

/-- Reading one directory entry, likewise. -/
lemma readEntryRaw_congr (data : InodeDisk) (start : Int) (dsk1 dsk2 : Disk)
    (hsk : start.toNat / BLOCK_SIZE < data.direct.length)
    (hag : ∀ b ∈ data.direct, dsk1.mem b = dsk2.mem b) :
    readEntryRaw data start dsk1 = readEntryRaw data start dsk2 := by
  unfold readEntryRaw
  rw [readAt32_congr data start dsk1 dsk2 hsk hag]

/-- The `lookup` scan of a directory whose data fits in the four direct
blocks depends only on those blocks' contents. -/
lemma lookupLoop_congr (fuel : Nat) (data : InodeDisk) (dsk1 dsk2 : Disk)
    (name16 : List Nat) (hlen : data.len ≤ 4096) (hdir : data.direct.length = 4)
    (hag : ∀ b ∈ data.direct, dsk1.mem b = dsk2.mem b) :
    ∀ start : Int,
    lookupLoop data dsk1 name16 start fuel = lookupLoop data dsk2 name16 start fuel := by
  induction fuel with
  | zero => intro start; rfl
  | succ fuel ih =>
    intro start
    unfold lookupLoop
    by_cases hin : start.toNat + DIR_ENTRY_SIZE ≤ data.len
    · rw [if_pos hin, if_pos hin]
      have hsk : start.toNat / BLOCK_SIZE < data.direct.length := by
        rw [hdir]
        have h32 : start.toNat + 32 ≤ data.len := hin
        show start.toNat / 1024 < 4
        omega
      rw [readEntryRaw_congr data start dsk1 dsk2 hsk hag]
      cases readEntryRaw data start dsk2 with
      | none => rfl
      | some raw =>
        dsimp only
        by_cases hm : entryInUse raw = true ∧ entryName raw = name16
        · rw [if_pos hm, if_pos hm]
        · rw [if_neg hm, if_neg hm]
          exact ih (start + 32)
    · rw [if_neg hin, if_neg hin]

/-- `Dir::lookup`, likewise. -/
lemma dirLookup_congr (data : InodeDisk) (path : List Nat) (dsk1 dsk2 : Disk)
    (hlen : data.len ≤ 4096) (hdir : data.direct.length = 4)
    (hag : ∀ b ∈ data.direct, dsk1.mem b = dsk2.mem b) :
    dirLookup data path dsk1 = dirLookup data path dsk2 := by
  unfold dirLookup
  by_cases hp : path = [] ∨ NAME_MAX < strByteLen path
  · rw [if_pos hp, if_pos hp]
  · rw [if_neg hp, if_neg hp]
    cases buildName path with
    | none => rfl
    | some name16 =>
      exact lookupLoop_congr _ data dsk1 dsk2 name16 hlen hdir hag 0

/-- The `list` scan of a directory in the direct blocks, likewise. -/
lemma dirListLoop_congr (fuel : Nat) (data : InodeDisk) (dsk1 dsk2 : Disk)
    (hlen : data.len ≤ 4096) (hdir : data.direct.length = 4)
    (hag : ∀ b ∈ data.direct, dsk1.mem b = dsk2.mem b) :
    ∀ (start : Int) (acc : List (List Nat)),
    dirListLoop data dsk1 start fuel acc = dirListLoop data dsk2 start fuel acc := by
  induction fuel with
  | zero => intro start acc; rfl
  | succ fuel ih =>
    intro start acc
    unfold dirListLoop
    by_cases hin : start.toNat + DIR_ENTRY_SIZE ≤ data.len
    · rw [if_pos hin, if_pos hin]
      have hsk : start.toNat / BLOCK_SIZE < data.direct.length := by
        rw [hdir]
        have h32 : start.toNat + 32 ≤ data.len := hin
        show start.toNat / 1024 < 4
        omega
      rw [readEntryRaw_congr data start dsk1 dsk2 hsk hag]
      cases readEntryRaw data start dsk2 with
      | none => rfl
      | some raw =>
        dsimp only
        by_cases hiu : entryInUse raw = true
        · rw [if_pos hiu, if_pos hiu]
          cases (entryName raw).findIdx? (fun x => x = 0) with
          | none => rfl
          | some t =>
            dsimp only
            by_cases hu : utf8Valid ((entryName raw).take t) = true
            · rw [if_pos hu, if_pos hu]
              exact ih (start + 32) (acc ++ [(entryName raw).take t])
            · rw [if_neg hu, if_neg hu]
        · rw [if_neg hiu, if_neg hiu]
          exact ih (start + 32) acc
    · rw [if_neg hin, if_neg hin]

/-- `Dir::list`, likewise. -/
lemma dirList_congr (data : InodeDisk) (dsk1 dsk2 : Disk)
    (hlen : data.len ≤ 4096) (hdir : data.direct.length = 4)
    (hag : ∀ b ∈ data.direct, dsk1.mem b = dsk2.mem b) :
    dirList data dsk1 = dirList data dsk2 := by
  unfold dirList
  exact dirListLoop_congr _ data dsk1 dsk2 hlen hdir hag 0 []

/-- An all-ASCII path's UTF-8 byte length is its character count. -/
lemma strByteLen_ascii (path : List Nat) :
    (∀ c ∈ path, c < 128) → strByteLen path = path.length := by
  induction path with
  | nil => intro h; rfl
  | cons c rest ih =>
    intro h
    show utf8Len c + strByteLen rest = rest.length + 1
    have hc : utf8Len c = 1 := by
      unfold utf8Len
      rw [if_pos (h c (List.mem_cons_self c rest))]
    rw [hc, ih (fun x hx => h x (List.mem_cons_of_mem c hx))]
    omega

/-- The stored 16-byte name of the file "a". -/
def nameA : List Nat := [97] ++ List.replicate 15 0

/-- A disk whose block 0 holds one in-use directory entry mapping "a"
to block 5 (the root directory's single data block). -/
def diskA : Disk := ⟨fun b i => if b = 0 then (entryBytes nameA 5 true).getD i 0 else 0, []⟩

/-- An open root-directory inode of length 32 (one entry), all of whose
data lives in direct block 0. -/
def rootA : Inode := ⟨1, 0, { InodeDisk.default with magic := 0, len := 32 }⟩

/-- The filesystem state for C10's witness: the root open once, a
30-block free map, and the directory of `diskA`. -/
def stA : FsState := ⟨[rootA], fm30, diskA⟩

/-- **C10** (confirmed).  In any state whose open table resolves the
root inode (entry `rIdx`, value `root`), whose root directory data fits
in the four direct pointers (all marked in the free map, as is block
`ROOT_INODE` itself), and where the valid ASCII name `path` is already
present (`lookup` finds it on the current disk), a `create_file(path,
length)` whose allocation of `1 + ceil(length/B)` blocks succeeds
returns `false`; the directory listing is unchanged, yet every
allocated block — all previously free — stays marked in the free map,
the free map loses no marked bit, and the newly created inode sits at
the end of the open table with open count 1.  Nothing is released. -/
theorem c10_create_file_collision_leak
    (st : FsState) (path : List Nat) (length : Nat) (rIdx : Nat) (root : Inode)
    (hfind : st.openList.findIdx? (fun i => i.block = ROOT_INODE) = some rIdx)
    (hroot : st.openList.getD rIdx ⟨0, 0, InodeDisk.default⟩ = root)
    (hdir4 : root.data.direct.length = 4)
    (hlen : root.data.len ≤ 4096)
    (hne : path ≠ []) (hlen15 : path.length ≤ NAME_MAX)
    (hascii : ∀ c ∈ path, c < 128)
    (hmarked : ∀ b ∈ root.data.direct, st.fm.test b = true)
    (hfound : dirLookup root.data path st.dsk = some true)
    (hok : (st.fm.allocate (1 + divCeil length BLOCK_SIZE) []).2.2 = true) :
    ∃ stOut inodeBlock newData,
      createFile st path length = some (false, stOut) ∧
      stOut.openList =
        st.openList.set rIdx { root with openCount := root.openCount + 1 } ++
          [⟨1, inodeBlock, newData⟩] ∧
      inodeBlock ∈ (st.fm.allocate (1 + divCeil length BLOCK_SIZE) []).2.1 ∧
      (∀ b ∈ (st.fm.allocate (1 + divCeil length BLOCK_SIZE) []).2.1,
        st.fm.test b = false ∧ stOut.fm.test b = true) ∧
      (st.fm.allocate (1 + divCeil length BLOCK_SIZE) []).2.1.length =
        1 + divCeil length BLOCK_SIZE ∧
      (∀ b, st.fm.test b = true → stOut.fm.test b = true) ∧
      dirList root.data stOut.dsk = dirList root.data st.dsk := by
  obtain ⟨hA_len, hA_bits, hA_mono⟩ :=
    allocate_spec st.fm (1 + divCeil length BLOCK_SIZE) hok
  obtain ⟨ib, data, hres, hol, hfm, hibA, hframe⟩ :=
    createInode_spec length st.dsk st.fm st.openList hok
  have hrlt : rIdx < st.openList.length :=
    (List.findIdx?_eq_some_iff_findIdx_eq.mp hfind).1
  have hagree : ∀ b ∈ root.data.direct,
      (createInode length st.dsk st.fm st.openList).dsk.mem b = st.dsk.mem b := by
    intro b hb
    apply hframe
    intro hbA
    have h1 := (hA_bits b hbA).1
    rw [hmarked b hb] at h1
    exact Bool.noConfusion h1
  have hbyte : ∀ c ∈ path, c ≤ 255 := fun c hc => by
    have := hascii c hc
    omega
  have hany : ¬ (path.any (fun c => 255 < c) = true) := by
    simp only [List.any_eq_true, decide_eq_true_eq, not_exists, not_and, not_lt]
    exact hbyte
  have hname : buildName path =
      some (path ++ List.replicate (16 - path.length) 0) := by
    unfold buildName
    have h15 : path.length ≤ 15 := hlen15
    rw [if_neg (by omega), if_neg hany]
  have hvalidcond : ¬ (path = [] ∨ NAME_MAX < strByteLen path) := by
    rintro (h | h)
    · exact hne h
    · rw [strByteLen_ascii path hascii] at h
      have h15 : path.length ≤ 15 := hlen15
      have h15b : (15 : Nat) < path.length := h
      omega
  have hlookup2 : dirLookup root.data path
      (createInode length st.dsk st.fm st.openList).dsk = some true := by
    rw [dirLookup_congr root.data path _ st.dsk hlen hdir4 hagree]
    exact hfound
  have hadd : dirAdd { root with openCount := root.openCount + 1 } path ib
      (createInode length st.dsk st.fm st.openList).fm
      (createInode length st.dsk st.fm st.openList).dsk =
      some (false, { root with openCount := root.openCount + 1 },
        (createInode length st.dsk st.fm st.openList).fm,
        (createInode length st.dsk st.fm st.openList).dsk) := by
    unfold dirAdd
    rw [hname]
    dsimp only
    rw [if_neg hvalidcond]
    rw [hlookup2]
  have hfind2 : ((st.openList ++ [(⟨1, ib, data⟩ : Inode)]).findIdx?
      (fun i => i.block = ROOT_INODE)) = some rIdx := by
    rw [List.findIdx?_append, hfind]
    rfl
  have hgetD2 : (st.openList ++ [(⟨1, ib, data⟩ : Inode)]).getD rIdx
      ⟨0, 0, InodeDisk.default⟩ = root := by
    rw [List.getD_append st.openList [⟨1, ib, data⟩] ⟨0, 0, InodeDisk.default⟩ rIdx hrlt]
    exact hroot
  have hopen : openInode (st.openList ++ [(⟨1, ib, data⟩ : Inode)]) ROOT_INODE
      (createInode length st.dsk st.fm st.openList).dsk =
      (st.openList.set rIdx { root with openCount := root.openCount + 1 } ++
         [(⟨1, ib, data⟩ : Inode)], rIdx,
       { root with openCount := root.openCount + 1 }) := by
    unfold openInode
    rw [hfind2]
    dsimp only
    rw [hgetD2]
    rw [List.set_append_left rIdx _ hrlt]
  have hcf : createFile st path length =
      some (false,
        ⟨st.openList.set rIdx { root with openCount := root.openCount + 1 } ++
           [(⟨1, ib, data⟩ : Inode)],
         (createInode length st.dsk st.fm st.openList).fm,
         (createInode length st.dsk st.fm st.openList).dsk⟩) := by
    simp only [createFile]
    rw [hres]
    dsimp only
    rw [hol, hopen]
    dsimp only
    rw [hadd]
    dsimp only
    rw [List.set_append_left rIdx _ (by rw [List.length_set]; exact hrlt),
      List.set_set]
  refine ⟨⟨st.openList.set rIdx { root with openCount := root.openCount + 1 } ++
      [(⟨1, ib, data⟩ : Inode)],
      (createInode length st.dsk st.fm st.openList).fm,
      (createInode length st.dsk st.fm st.openList).dsk⟩, ib, data,
    hcf, rfl, hibA, ?_, hA_len, ?_, ?_⟩
  · intro b hb
    refine ⟨(hA_bits b hb).1, ?_⟩
    show (createInode length st.dsk st.fm st.openList).fm.test b = true
    rw [hfm]
    exact (hA_bits b hb).2
  · intro b htest
    show (createInode length st.dsk st.fm st.openList).fm.test b = true
    rw [hfm]
    exact hA_mono b htest
  · exact dirList_congr root.data _ st.dsk hlen hdir4 hagree

/-- Witness for C10: on `stA` (root directory already holding "a"),
`create_file("a", 100)` allocates blocks 2 and 3, fails the `add`, and
leaves both marked with the new inode still open. -/
theorem c10_create_file_collision_leak_witness :
    dirLookup rootA.data [97] stA.dsk = some true ∧
    (stA.fm.allocate (1 + divCeil 100 BLOCK_SIZE) []).2.2 = true ∧
    (∃ stOut inodeBlock newData,
      createFile stA [97] 100 = some (false, stOut) ∧
      stOut.openList =
        stA.openList.set 0 { rootA with openCount := rootA.openCount + 1 } ++
          [⟨1, inodeBlock, newData⟩] ∧
      inodeBlock ∈ (stA.fm.allocate (1 + divCeil 100 BLOCK_SIZE) []).2.1 ∧
      (∀ b ∈ (stA.fm.allocate (1 + divCeil 100 BLOCK_SIZE) []).2.1,
        stA.fm.test b = false ∧ stOut.fm.test b = true) ∧
      (stA.fm.allocate (1 + divCeil 100 BLOCK_SIZE) []).2.1.length =
        1 + divCeil 100 BLOCK_SIZE ∧
      (∀ b, stA.fm.test b = true → stOut.fm.test b = true) ∧
      dirList rootA.data stOut.dsk = dirList rootA.data stA.dsk) :=
  ⟨by decide, by decide,
   c10_create_file_collision_leak stA [97] 100 0 rootA (by decide) (by decide)
     (by decide) (by decide) (by decide) (by decide) (by decide) (by decide)
     (by decide) (by decide)⟩

end Fs

end VFS
